import Mathlib

/-!
A verification model of the navc symbol database (`symbols-db.go`, the
translation-unit store of the navc indexing daemon).

Modelling conventions, used throughout:

* Go `map` values are modelled by `SMap`, an association list kept strictly
  sorted by key.  A Go map is unordered and has unique keys, so two maps are
  the same value exactly when they agree on every lookup; keeping the entries
  sorted makes that extensional equality coincide with structural equality
  and keeps every operation executable.
* `fileID` and `symbolID` are SHA-1 digests of path / USR strings
  (`getStringEncode`).  SHA-1 is treated as injective, so the digest is
  modelled by the string itself and `getStringEncode` is the identity.
* `time.Time` is modelled by `Nat` (nanoseconds since the epoch);
  `t.After u` is `t > u` and `t.IsZero` is `t = 0`.
* `int16` conversions wrap, which `toInt16` makes explicit.
* The database directory on disk is part of the modelled state (`disk`);
  writing a translation-unit file and renaming it into place is modelled as
  a single keyed update, which is exactly the atomicity the rename provides.
-/

/-- Boolean strict order on `Char` through the numeric code point. -/
def charLtB (a b : Char) : Bool := decide (a.toNat < b.toNat)

theorem charLtB_trans {a b c : Char} (h1 : charLtB a b = true)
    (h2 : charLtB b c = true) : charLtB a c = true := by
  simp only [charLtB, decide_eq_true_eq] at *
  omega

theorem charLtB_irrefl (a : Char) : charLtB a a = false := by
  simp [charLtB]

theorem charLtB_connex {a b : Char} (h1 : charLtB a b = false)
    (h2 : charLtB b a = false) : a = b := by
  simp only [charLtB, decide_eq_false_iff_not, Char.toNat, Nat.not_lt] at h1 h2
  exact Char.ext (UInt32.ext_iff.mpr (Nat.le_antisymm h2 h1))

/-- Lexicographic boolean strict order on lists of characters. -/
def listCharLtB : List Char → List Char → Bool
  | [], [] => false
  | [], _ :: _ => true
  | _ :: _, [] => false
  | a :: as, b :: bs =>
    if charLtB a b then true
    else if charLtB b a then false
    else listCharLtB as bs

theorem listCharLtB_trans : ∀ {xs ys zs : List Char},
    listCharLtB xs ys = true → listCharLtB ys zs = true →
    listCharLtB xs zs = true
  | [], [], _, h1, _ => by simp [listCharLtB] at h1
  | [], _ :: _, [], _, h2 => by simp [listCharLtB] at h2
  | [], _ :: _, _ :: _, _, _ => by simp [listCharLtB]
  | _ :: _, [], _, h1, _ => by simp [listCharLtB] at h1
  | _ :: _, _ :: _, [], _, h2 => by simp [listCharLtB] at h2
  | x :: xs, y :: ys, z :: zs, h1, h2 => by
    simp only [listCharLtB] at h1 h2 ⊢
    by_cases hxy : charLtB x y = true
    · by_cases hyz : charLtB y z = true
      · simp [charLtB_trans hxy hyz]
      · by_cases hzy : charLtB z y = true
        · simp [hyz, hzy] at h2
        · have hyz' : y = z :=
            charLtB_connex (Bool.eq_false_iff.mpr hyz) (Bool.eq_false_iff.mpr hzy)
          subst hyz'
          simp [hxy]
    · by_cases hyx : charLtB y x = true
      · simp [hxy, hyx] at h1
      · have hxy' : x = y :=
          charLtB_connex (Bool.eq_false_iff.mpr hxy) (Bool.eq_false_iff.mpr hyx)
        subst hxy'
        simp only [charLtB_irrefl, Bool.false_eq_true, if_false] at h1
        by_cases hxz : charLtB x z = true
        · simp [hxz]
        · by_cases hzx : charLtB z x = true
          · simp [hxz, hzx] at h2
          · simp only [hxz, hzx, Bool.false_eq_true, if_false] at h2 ⊢
            exact listCharLtB_trans h1 h2

theorem listCharLtB_irrefl : ∀ (xs : List Char), listCharLtB xs xs = false
  | [] => rfl
  | x :: xs => by
    simp only [listCharLtB, charLtB_irrefl x, Bool.false_eq_true, if_false]
    exact listCharLtB_irrefl xs

theorem listCharLtB_connex : ∀ {xs ys : List Char},
    listCharLtB xs ys = false → listCharLtB ys xs = false → xs = ys
  | [], [], _, _ => rfl
  | [], _ :: _, h1, _ => by simp [listCharLtB] at h1
  | _ :: _, [], _, h2 => by simp [listCharLtB] at h2
  | x :: xs, y :: ys, h1, h2 => by
    simp only [listCharLtB] at h1 h2
    by_cases hxy : charLtB x y = true
    · simp [hxy] at h1
    · by_cases hyx : charLtB y x = true
      · simp [hyx] at h2
      · simp only [hxy, hyx, Bool.false_eq_true, if_false] at h1 h2
        have hx : x = y :=
          charLtB_connex (Bool.eq_false_iff.mpr hxy) (Bool.eq_false_iff.mpr hyx)
        have ht : xs = ys := listCharLtB_connex h1 h2
        rw [hx, ht]

/-- Boolean strict order on `String` (lexicographic on code points). -/
def strLtB (a b : String) : Bool := listCharLtB a.data b.data

theorem strLtB_trans {a b c : String} (h1 : strLtB a b = true)
    (h2 : strLtB b c = true) : strLtB a c = true :=
  listCharLtB_trans h1 h2

theorem strLtB_irrefl (a : String) : strLtB a a = false :=
  listCharLtB_irrefl a.data

theorem strLtB_connex {a b : String} (h1 : strLtB a b = false)
    (h2 : strLtB b a = false) : a = b :=
  String.ext (listCharLtB_connex h1 h2)

/-- A boolean strict total order, the interface the sorted maps need. -/
class KOrd (K : Type) where
  ltb : K → K → Bool
  ltb_trans : ∀ {a b c : K}, ltb a b = true → ltb b c = true → ltb a c = true
  ltb_irrefl : ∀ a : K, ltb a a = false
  ltb_connex : ∀ {a b : K}, ltb a b = false → ltb b a = false → a = b

instance : KOrd String where
  ltb := strLtB
  ltb_trans := strLtB_trans
  ltb_irrefl := strLtB_irrefl
  ltb_connex := strLtB_connex

instance : KOrd Int where
  ltb a b := decide (a < b)
  ltb_trans := by
    intro a b c h1 h2
    simp only [decide_eq_true_eq] at *
    omega
  ltb_irrefl := by
    intro a
    simp
  ltb_connex := by
    intro a b h1 h2
    simp only [decide_eq_false_iff_not] at h1 h2
    omega

theorem KOrd.ltb_asymm {K : Type} [KOrd K] {a b : K}
    (h : KOrd.ltb a b = true) : KOrd.ltb b a = false := by
  by_contra hc
  have hba : KOrd.ltb b a = true := by
    revert hc
    cases KOrd.ltb b a <;> simp
  have haa : KOrd.ltb a a = true := KOrd.ltb_trans h hba
  rw [KOrd.ltb_irrefl] at haa
  exact Bool.false_ne_true haa

theorem KOrd.ne_of_ltb {K : Type} [KOrd K] {a b : K}
    (h : KOrd.ltb a b = true) : a ≠ b := by
  intro he
  subst he
  rw [KOrd.ltb_irrefl] at h
  exact Bool.false_ne_true h

/-- Lexicographic product comparison, used to order composite keys. -/
def prodLtB {A B : Type} [KOrd A] [KOrd B] (x y : A × B) : Bool :=
  if KOrd.ltb x.1 y.1 then true
  else if KOrd.ltb y.1 x.1 then false
  else KOrd.ltb x.2 y.2

theorem prodLtB_trans {A B : Type} [KOrd A] [KOrd B] {x y z : A × B}
    (h1 : prodLtB x y = true) (h2 : prodLtB y z = true) :
    prodLtB x z = true := by
  simp only [prodLtB] at h1 h2 ⊢
  by_cases hxy : KOrd.ltb x.1 y.1 = true
  · by_cases hyz : KOrd.ltb y.1 z.1 = true
    · simp [KOrd.ltb_trans hxy hyz]
    · by_cases hzy : KOrd.ltb z.1 y.1 = true
      · simp [hyz, hzy] at h2
      · have he : y.1 = z.1 :=
          KOrd.ltb_connex (Bool.eq_false_iff.mpr hyz) (Bool.eq_false_iff.mpr hzy)
        rw [← he, hxy]
        simp
  · by_cases hyx : KOrd.ltb y.1 x.1 = true
    · simp [hxy, hyx] at h1
    · have hfst : x.1 = y.1 :=
        KOrd.ltb_connex (Bool.eq_false_iff.mpr hxy) (Bool.eq_false_iff.mpr hyx)
      simp only [hxy, hyx, Bool.false_eq_true, if_false] at h1
      by_cases hyz : KOrd.ltb y.1 z.1 = true
      · rw [hfst, hyz]
        simp
      · by_cases hzy : KOrd.ltb z.1 y.1 = true
        · simp [hyz, hzy] at h2
        · simp only [hyz, hzy, Bool.false_eq_true, if_false] at h2
          rw [hfst, Bool.eq_false_iff.mpr hyz, Bool.eq_false_iff.mpr hzy]
          simp only [Bool.false_eq_true, if_false]
          exact KOrd.ltb_trans h1 h2

theorem prodLtB_irrefl {A B : Type} [KOrd A] [KOrd B] (x : A × B) :
    prodLtB x x = false := by
  simp [prodLtB, KOrd.ltb_irrefl]

theorem prodLtB_connex {A B : Type} [KOrd A] [KOrd B] {x y : A × B}
    (h1 : prodLtB x y = false) (h2 : prodLtB y x = false) : x = y := by
  simp only [prodLtB] at h1 h2
  by_cases hxy : KOrd.ltb x.1 y.1 = true
  · simp [hxy] at h1
  · by_cases hyx : KOrd.ltb y.1 x.1 = true
    · simp [hyx] at h2
    · have hfst : x.1 = y.1 :=
        KOrd.ltb_connex (Bool.eq_false_iff.mpr hxy) (Bool.eq_false_iff.mpr hyx)
      simp only [hxy, hyx, Bool.false_eq_true, if_false] at h1 h2
      have hsnd : x.2 = y.2 := KOrd.ltb_connex h1 h2
      exact Prod.ext hfst hsnd

instance {A B : Type} [KOrd A] [KOrd B] : KOrd (A × B) where
  ltb := prodLtB
  ltb_trans := prodLtB_trans
  ltb_irrefl := prodLtB_irrefl
  ltb_connex := prodLtB_connex

/-- Transport a key order along an injection, for record-typed keys. -/
def KOrd.lift {K A : Type} [KOrd A] (f : K → A)
    (hf : Function.Injective f) : KOrd K where
  ltb x y := KOrd.ltb (f x) (f y)
  ltb_trans := fun h1 h2 => KOrd.ltb_trans h1 h2
  ltb_irrefl := fun a => KOrd.ltb_irrefl (f a)
  ltb_connex := fun h1 h2 => hf (KOrd.ltb_connex h1 h2)

/-! ### Sorted association lists: the model of Go maps -/

/-- Strict ascending order of the keys of an association list. -/
def sortedKeysB {K V : Type} [KOrd K] : List (K × V) → Bool
  | [] => true
  | [_] => true
  | (a, _) :: (b, w) :: t => KOrd.ltb a b && sortedKeysB ((b, w) :: t)

/-- `k` is strictly below every key of the list (head check suffices when sorted). -/
def keyLbB {K V : Type} [KOrd K] (k : K) : List (K × V) → Bool
  | [] => true
  | (a, _) :: _ => KOrd.ltb k a

theorem sortedKeysB_cons {K V : Type} [KOrd K] (a : K) (w : V) (t : List (K × V)) :
    sortedKeysB ((a, w) :: t) = (keyLbB a t && sortedKeysB t) := by
  cases t with
  | nil => rfl
  | cons p t => rcases p with ⟨b, x⟩; rfl

theorem sortedKeysB_tail {K V : Type} [KOrd K] {a : K} {w : V} {t : List (K × V)}
    (h : sortedKeysB ((a, w) :: t) = true) : sortedKeysB t = true := by
  rw [sortedKeysB_cons] at h
  exact (Bool.and_eq_true_iff.mp h).2

theorem keyLbB_head {K V : Type} [KOrd K] {a : K} {w : V} {t : List (K × V)}
    (h : sortedKeysB ((a, w) :: t) = true) : keyLbB a t = true := by
  rw [sortedKeysB_cons] at h
  exact (Bool.and_eq_true_iff.mp h).1

/-- In a sorted list, the head key is strictly below every later key. -/
theorem sorted_head_lt {K V : Type} [KOrd K] :
    ∀ {a : K} {w : V} {t : List (K × V)}, sortedKeysB ((a, w) :: t) = true →
    ∀ p ∈ t, KOrd.ltb a p.1 = true := by
  intro a w t
  induction t generalizing a w with
  | nil => intro _ p hp; exact absurd hp (List.not_mem_nil p)
  | cons q t ih =>
    intro h p hp
    rcases q with ⟨b, x⟩
    have hab : KOrd.ltb a b = true := keyLbB_head h
    rcases List.mem_cons.mp hp with he | ht
    · rw [he]; exact hab
    · exact KOrd.ltb_trans hab (ih (sortedKeysB_tail h) p ht)

/-- Go map read: the first (hence, when sorted, only) binding of the key. -/
def slookup {K V : Type} [DecidableEq K] (k : K) : List (K × V) → Option V
  | [] => none
  | (a, v) :: t => if k = a then some v else slookup k t

/-- Go map write `m[k] = v`: insert in key order, replacing any old binding. -/
def sinsert {K V : Type} [KOrd K] [DecidableEq K] (k : K) (v : V) :
    List (K × V) → List (K × V)
  | [] => [(k, v)]
  | (a, w) :: t =>
    if KOrd.ltb k a then (k, v) :: (a, w) :: t
    else if k = a then (k, v) :: t
    else (a, w) :: sinsert k v t

/-- Go `delete(m, k)`: drop the binding of `k` if present. -/
def serase {K V : Type} [DecidableEq K] (k : K) : List (K × V) → List (K × V)
  | [] => []
  | (a, w) :: t => if k = a then t else (a, w) :: serase k t

theorem slookup_none_of_lb {K V : Type} [KOrd K] [DecidableEq K] :
    ∀ {k : K} {l : List (K × V)}, sortedKeysB l = true → keyLbB k l = true →
    slookup k l = none := by
  intro k l
  induction l with
  | nil => intro _ _; rfl
  | cons p t ih =>
    intro hs hlb
    rcases p with ⟨a, w⟩
    have hka : KOrd.ltb k a = true := hlb
    have hne : k ≠ a := KOrd.ne_of_ltb hka
    simp only [slookup, hne, if_false]
    apply ih (sortedKeysB_tail hs)
    cases t with
    | nil => rfl
    | cons q t2 =>
      rcases q with ⟨b, x⟩
      exact KOrd.ltb_trans hka (keyLbB_head hs)

theorem keyLbB_sinsert {K V : Type} [KOrd K] [DecidableEq K] {a k : K} {v : V}
    {l : List (K × V)} (hlb : keyLbB a l = true) (hak : KOrd.ltb a k = true) :
    keyLbB a (sinsert k v l) = true := by
  cases l with
  | nil => exact hak
  | cons p t =>
    rcases p with ⟨b, w⟩
    have hab : KOrd.ltb a b = true := hlb
    simp only [sinsert]
    by_cases h1 : KOrd.ltb k b = true
    · rw [if_pos h1]
      exact hak
    · rw [if_neg h1]
      by_cases h2 : k = b
      · rw [if_pos h2]
        exact hak
      · rw [if_neg h2]
        exact hab

theorem sortedKeysB_sinsert {K V : Type} [KOrd K] [DecidableEq K] (k : K) (v : V) :
    ∀ {l : List (K × V)}, sortedKeysB l = true →
    sortedKeysB (sinsert k v l) = true := by
  intro l
  induction l with
  | nil => intro _; rfl
  | cons p t ih =>
    intro hs
    rcases p with ⟨a, w⟩
    simp only [sinsert]
    by_cases h1 : KOrd.ltb k a = true
    · rw [if_pos h1, sortedKeysB_cons]
      exact Bool.and_eq_true_iff.mpr ⟨h1, hs⟩
    · rw [if_neg h1]
      by_cases h2 : k = a
      · rw [if_pos h2, sortedKeysB_cons]
        rw [sortedKeysB_cons] at hs
        subst h2
        exact hs
      · rw [if_neg h2, sortedKeysB_cons]
        apply Bool.and_eq_true_iff.mpr
        constructor
        · have hak : KOrd.ltb a k = true := by
            cases hak2 : KOrd.ltb a k with
            | true => rfl
            | false =>
              exact absurd (KOrd.ltb_connex (Bool.eq_false_iff.mpr h1) hak2) h2
          exact keyLbB_sinsert (keyLbB_head hs) hak
        · exact ih (sortedKeysB_tail hs)

theorem keyLbB_serase {K V : Type} [KOrd K] [DecidableEq K] {a k : K}
    {l : List (K × V)} (hs : sortedKeysB l = true) (hlb : keyLbB a l = true) :
    keyLbB a (serase k l) = true := by
  cases l with
  | nil => rfl
  | cons p t =>
    rcases p with ⟨b, w⟩
    have hab : KOrd.ltb a b = true := hlb
    simp only [serase]
    by_cases h1 : k = b
    · simp only [h1, if_true]
      cases t with
      | nil => rfl
      | cons q t2 =>
        rcases q with ⟨c, x⟩
        exact KOrd.ltb_trans hab (keyLbB_head hs)
    · simp only [h1, if_false]
      exact hab

theorem sortedKeysB_serase {K V : Type} [KOrd K] [DecidableEq K] (k : K) :
    ∀ {l : List (K × V)}, sortedKeysB l = true →
    sortedKeysB (serase k l) = true := by
  intro l
  induction l with
  | nil => intro _; rfl
  | cons p t ih =>
    intro hs
    rcases p with ⟨a, w⟩
    simp only [serase]
    by_cases h1 : k = a
    · simp only [h1, if_true]
      exact sortedKeysB_tail hs
    · simp only [h1, if_false]
      rw [sortedKeysB_cons]
      apply Bool.and_eq_true_iff.mpr
      exact ⟨keyLbB_serase (sortedKeysB_tail hs) (keyLbB_head hs),
        ih (sortedKeysB_tail hs)⟩

theorem slookup_sinsert_self {K V : Type} [KOrd K] [DecidableEq K] (k : K) (v : V) :
    ∀ (l : List (K × V)), slookup k (sinsert k v l) = some v := by
  intro l
  induction l with
  | nil => simp [sinsert, slookup]
  | cons p t ih =>
    rcases p with ⟨a, w⟩
    simp only [sinsert]
    by_cases h1 : KOrd.ltb k a = true
    · rw [if_pos h1]
      simp [slookup]
    · rw [if_neg h1]
      by_cases h2 : k = a
      · rw [if_pos h2]
        simp [slookup]
      · rw [if_neg h2]
        simp only [slookup, h2, if_false]
        exact ih

theorem slookup_sinsert_ne {K V : Type} [KOrd K] [DecidableEq K] {q k : K} (v : V)
    (hne : q ≠ k) : ∀ (l : List (K × V)), slookup q (sinsert k v l) = slookup q l := by
  intro l
  induction l with
  | nil => simp [sinsert, slookup, hne]
  | cons p t ih =>
    rcases p with ⟨a, w⟩
    simp only [sinsert]
    by_cases h1 : KOrd.ltb k a = true
    · rw [if_pos h1]
      simp only [slookup, hne, if_false]
    · rw [if_neg h1]
      by_cases h2 : k = a
      · rw [if_pos h2]
        subst h2
        simp only [slookup, hne, if_false]
      · rw [if_neg h2]
        simp only [slookup]
        by_cases h3 : q = a
        · simp [h3]
        · simp only [h3, if_false]
          exact ih

theorem slookup_serase_self {K V : Type} [KOrd K] [DecidableEq K] (k : K) :
    ∀ {l : List (K × V)}, sortedKeysB l = true → slookup k (serase k l) = none := by
  intro l
  induction l with
  | nil => intro _; rfl
  | cons p t ih =>
    intro hs
    rcases p with ⟨a, w⟩
    simp only [serase]
    by_cases h1 : k = a
    · subst h1
      simp only [if_true]
      exact slookup_none_of_lb (sortedKeysB_tail hs) (keyLbB_head hs)
    · simp only [h1, if_false, slookup, if_neg h1]
      exact ih (sortedKeysB_tail hs)

theorem slookup_serase_ne {K V : Type} [DecidableEq K] {q k : K} (hne : q ≠ k) :
    ∀ (l : List (K × V)), slookup q (serase k l) = slookup q l := by
  intro l
  induction l with
  | nil => rfl
  | cons p t ih =>
    rcases p with ⟨a, w⟩
    simp only [serase]
    by_cases h1 : k = a
    · subst h1
      simp only [if_true, slookup, hne, if_false]
    · simp only [h1, if_false, slookup]
      by_cases h3 : q = a
      · simp [h3]
      · simp only [h3, if_false]
        exact ih

theorem slookup_head_of_sorted {K V : Type} [KOrd K] [DecidableEq K] {a : K} {w : V}
    {t : List (K × V)} (_hs : sortedKeysB ((a, w) :: t) = true) :
    slookup a ((a, w) :: t) = some w := by
  simp [slookup]

/-- Two sorted lists with the same lookup function are the same list. -/
theorem sorted_ext {K V : Type} [KOrd K] [DecidableEq K] :
    ∀ {l1 l2 : List (K × V)}, sortedKeysB l1 = true → sortedKeysB l2 = true →
    (∀ k, slookup k l1 = slookup k l2) → l1 = l2 := by
  intro l1
  induction l1 with
  | nil =>
    intro l2 _ hs2 hl
    cases l2 with
    | nil => rfl
    | cons p t =>
      rcases p with ⟨a, w⟩
      have h := hl a
      rw [slookup_head_of_sorted hs2] at h
      exact absurd h.symm (Option.some_ne_none w)
  | cons p t1 ih =>
    intro l2 hs1 hs2 hl
    rcases p with ⟨a, w⟩
    cases l2 with
    | nil =>
      have h := hl a
      rw [slookup_head_of_sorted hs1] at h
      exact absurd h (Option.some_ne_none w)
    | cons q t2 =>
      rcases q with ⟨b, x⟩
      have hab : a = b := by
        by_cases h1 : KOrd.ltb a b = true
        · exfalso
          have h := hl a
          rw [slookup_head_of_sorted hs1] at h
          have hnone : slookup a ((b, x) :: t2) = none :=
            slookup_none_of_lb hs2 h1
          rw [hnone] at h
          exact Option.some_ne_none w h
        · by_cases h2 : KOrd.ltb b a = true
          · exfalso
            have h := hl b
            rw [slookup_head_of_sorted hs2] at h
            have hnone : slookup b ((a, w) :: t1) = none :=
              slookup_none_of_lb hs1 h2
            rw [hnone] at h
            exact Option.some_ne_none x h.symm
          · exact KOrd.ltb_connex (Bool.eq_false_iff.mpr h1) (Bool.eq_false_iff.mpr h2)
      subst hab
      have hwx : w = x := by
        have h := hl a
        rw [slookup_head_of_sorted hs1, slookup_head_of_sorted hs2] at h
        exact Option.some.injEq w x ▸ h
      subst hwx
      have htails : ∀ k, slookup k t1 = slookup k t2 := by
        intro k
        by_cases hk : k = a
        · subst hk
          rw [slookup_none_of_lb (sortedKeysB_tail hs1) (keyLbB_head hs1),
            slookup_none_of_lb (sortedKeysB_tail hs2) (keyLbB_head hs2)]
        · have h := hl k
          simp only [slookup, hk, if_false] at h
          exact h
      rw [ih (sortedKeysB_tail hs1) (sortedKeysB_tail hs2) htails]

theorem slookup_none_iff_keys {K V : Type} [DecidableEq K] (k : K) :
    ∀ (l : List (K × V)), slookup k l = none ↔ k ∉ l.map Prod.fst := by
  intro l
  induction l with
  | nil => simp [slookup]
  | cons p t ih =>
    rcases p with ⟨a, w⟩
    simp only [slookup, List.map_cons, List.mem_cons]
    by_cases h1 : k = a
    · simp [h1]
    · simp only [h1, if_false, ih, false_or]

/-- A Go map: association list with strictly ascending keys.  Equality of
`SMap`s is exactly extensional equality of the underlying finite maps. -/
structure SMap (K V : Type) [KOrd K] where
  entries : List (K × V)
  swf : sortedKeysB entries = true

def SMap.empty {K V : Type} [KOrd K] : SMap K V := ⟨[], rfl⟩

def SMap.lookup {K V : Type} [KOrd K] [DecidableEq K] (m : SMap K V) (k : K) :
    Option V :=
  slookup k m.entries

def SMap.insert {K V : Type} [KOrd K] [DecidableEq K] (m : SMap K V) (k : K)
    (v : V) : SMap K V :=
  ⟨sinsert k v m.entries, sortedKeysB_sinsert k v m.swf⟩

def SMap.erase {K V : Type} [KOrd K] [DecidableEq K] (m : SMap K V) (k : K) :
    SMap K V :=
  ⟨serase k m.entries, sortedKeysB_serase k m.swf⟩

def SMap.isEmpty {K V : Type} [KOrd K] (m : SMap K V) : Bool :=
  m.entries.isEmpty

def SMap.keys {K V : Type} [KOrd K] (m : SMap K V) : List K :=
  m.entries.map Prod.fst

theorem SMap.eq_of_entries_eq {K V : Type} [KOrd K] {m1 m2 : SMap K V}
    (h : m1.entries = m2.entries) : m1 = m2 := by
  cases m1
  cases m2
  simp only at h
  subst h
  rfl

instance {K V : Type} [KOrd K] [DecidableEq K] [DecidableEq V] :
    DecidableEq (SMap K V) := fun m1 m2 =>
  decidable_of_iff (m1.entries = m2.entries)
    ⟨SMap.eq_of_entries_eq, fun h => h ▸ rfl⟩

theorem SMap.lookup_insert_self {K V : Type} [KOrd K] [DecidableEq K]
    (m : SMap K V) (k : K) (v : V) : (m.insert k v).lookup k = some v :=
  slookup_sinsert_self k v m.entries

theorem SMap.lookup_insert_ne {K V : Type} [KOrd K] [DecidableEq K]
    (m : SMap K V) {q k : K} (v : V) (h : q ≠ k) :
    (m.insert k v).lookup q = m.lookup q :=
  slookup_sinsert_ne v h m.entries

theorem SMap.lookup_erase_self {K V : Type} [KOrd K] [DecidableEq K]
    (m : SMap K V) (k : K) : (m.erase k).lookup k = none :=
  slookup_serase_self k m.swf

theorem SMap.lookup_erase_ne {K V : Type} [KOrd K] [DecidableEq K]
    (m : SMap K V) {q k : K} (h : q ≠ k) : (m.erase k).lookup q = m.lookup q :=
  slookup_serase_ne h m.entries

theorem SMap.ext_lookup {K V : Type} [KOrd K] [DecidableEq K] {m1 m2 : SMap K V}
    (h : ∀ k, m1.lookup k = m2.lookup k) : m1 = m2 :=
  SMap.eq_of_entries_eq (sorted_ext m1.swf m2.swf h)

theorem SMap.lookup_empty {K V : Type} [KOrd K] [DecidableEq K] (k : K) :
    (SMap.empty : SMap K V).lookup k = none :=
  rfl

theorem SMap.lookup_none_iff {K V : Type} [KOrd K] [DecidableEq K]
    (m : SMap K V) (k : K) : m.lookup k = none ↔ k ∉ m.keys :=
  slookup_none_iff_keys k m.entries

theorem SMap.isEmpty_iff_lookup_none {K V : Type} [KOrd K] [DecidableEq K]
    (m : SMap K V) : m.isEmpty = true ↔ ∀ k, m.lookup k = none := by
  cases m with
  | mk l hl =>
    cases l with
    | nil =>
      simp only [SMap.isEmpty, SMap.lookup, List.isEmpty_nil, true_iff]
      intro k
      rfl
    | cons p t =>
      rcases p with ⟨a, w⟩
      constructor
      · intro h
        simp [SMap.isEmpty] at h
      · intro h
        exfalso
        have ha := h a
        simp only [SMap.lookup] at ha
        rw [slookup_head_of_sorted hl] at ha
        exact Option.some_ne_none w ha

theorem SMap.insert_insert_same {K V : Type} [KOrd K] [DecidableEq K]
    (m : SMap K V) (k : K) (v w : V) :
    (m.insert k v).insert k w = m.insert k w := by
  apply SMap.ext_lookup
  intro q
  by_cases h : q = k
  · subst h
    rw [SMap.lookup_insert_self, SMap.lookup_insert_self]
  · rw [SMap.lookup_insert_ne _ _ h, SMap.lookup_insert_ne _ _ h,
      SMap.lookup_insert_ne _ _ h]

theorem SMap.insert_lookup_eq {K V : Type} [KOrd K] [DecidableEq K]
    (m : SMap K V) (k : K) (v : V) (h : m.lookup k = some v) :
    m.insert k v = m := by
  apply SMap.ext_lookup
  intro q
  by_cases hq : q = k
  · subst hq
    rw [SMap.lookup_insert_self, h]
  · rw [SMap.lookup_insert_ne _ _ hq]

theorem SMap.erase_insert_cancel {K V : Type} [KOrd K] [DecidableEq K]
    (m : SMap K V) (k : K) (v : V) (h : m.lookup k = some v) :
    (m.erase k).insert k v = m := by
  apply SMap.ext_lookup
  intro q
  by_cases hq : q = k
  · subst hq
    rw [SMap.lookup_insert_self, h]
  · rw [SMap.lookup_insert_ne _ _ hq, SMap.lookup_erase_ne _ hq]

/-! ### Data model (`symbols-db.go`: symbolLoc, symbolData, symbolsTUDB) -/

/-- `getStringEncode` is `sha1.Sum` of the string.  The digest is used only as
an injective key, so the model keeps the string itself. -/
def getStringEncode (str : String) : String := str

/-- `filepath.Clean`.  The model works with already-clean paths, on which
`Clean` is the identity. -/
def cleanPath (p : String) : String := p

/-- Go `int16(n)`: two's-complement wrap-around into `[-32768, 32767]`. -/
def toInt16 (n : Int) : Int := (n + 32768) % 65536 - 32768

/-- `symbolLoc`: fixed-width location `(File fileID, Line int16, Col int16)`. -/
structure symbolLoc where
  File : String
  Line : Int
  Col : Int
deriving DecidableEq

/-- `SymbolLocReq`: the request/response location `(File string, Line, Col int)`. -/
structure SymbolLocReq where
  File : String
  Line : Int
  Col : Int
deriving DecidableEq

/-- `symbolUse`: a use site with its sticky function-call flag. -/
structure symbolUse where
  Loc : symbolLoc
  FuncCall : Bool
deriving DecidableEq

/-- `symbolData`: per-symbol graph node of one translation unit. -/
structure symbolData where
  Name : String
  Uses : List symbolUse
  Decls : List symbolLoc
  DefAvail : Bool
  Def : symbolLoc
deriving DecidableEq

/-- `symbolInfo`: what the parser hands over for one cursor. -/
structure symbolInfo where
  name : String
  usr : String
  loc : SymbolLocReq
deriving DecidableEq

instance : KOrd symbolLoc :=
  KOrd.lift (fun l => (l.File, (l.Line, l.Col))) (by
    intro a b h
    cases a
    cases b
    simp only [Prod.mk.injEq] at h
    obtain ⟨h1, h2, h3⟩ := h
    subst h1
    subst h2
    subst h3
    rfl)

/-- Go's zero value of `symbolLoc` (zero digest modelled as the empty string). -/
def zeroSymbolLoc : symbolLoc := ⟨"", 0, 0⟩

/-- Go's zero value of `symbolData`, what a map read returns for a missing key. -/
def zeroSymbolData : symbolData := ⟨"", [], [], false, zeroSymbolLoc⟩

/-- `symbolsTUDB`: the persisted record of one translation unit.
`headersTUDB` is the parse-time unexported field (header paths by name);
`tmpFile` is not modelled, the staged write appears directly in `InsertTUDB`. -/
structure symbolsTUDB where
  File : String
  Mtime : Nat
  SymLoc : SMap symbolLoc String
  SymData : SMap String symbolData
  Headers : SMap String Nat
  Includers : SMap String Bool
  headersTUDB : SMap String Bool
deriving DecidableEq

/-- `newSymbolsTUDB(file, mtime)`. -/
def newSymbolsTUDB (file : String) (mtime : Nat) : symbolsTUDB :=
  { File := file
    Mtime := mtime
    SymLoc := SMap.empty
    SymData := SMap.empty
    Headers := SMap.empty
    Includers := SMap.empty
    headersTUDB := SMap.empty }

/-- `nonExistingHeaderName`: the phantom-header name (the model keeps the whole
unresolved path after the magic prefix, which preserves injectivity). -/
def nonExistingHeaderName (headPath : String) : String :=
  "IDoNotReallyExist-" ++ headPath

/-- `getSymbolLoc`: clean the path, hash it, and narrow line/col to `int16`. -/
def getSymbolLoc (sym : SymbolLocReq) : symbolLoc :=
  { File := getStringEncode (cleanPath sym.File)
    Line := toInt16 sym.Line
    Col := toInt16 sym.Col }

/-- `getSymbolData(id, name)`: existing node or a fresh one. -/
def symbolsTUDB.getSymbolData (db : symbolsTUDB) (id : String) (name : String) :
    symbolData :=
  match db.SymData.lookup id with
  | some data => data
  | none =>
    { Name := name
      Uses := []
      Decls := []
      DefAvail := false
      Def := zeroSymbolLoc }

/-- `insertSymbolDeclWithDef(sym, def)`: record a declaration, and the
definition when one is supplied.  No validation is performed on the location. -/
def symbolsTUDB.insertSymbolDeclWithDef (db : symbolsTUDB)
    (sym : symbolInfo) (defInfo : Option symbolInfo) : symbolsTUDB :=
  let id := getStringEncode sym.usr
  let symLoc := getSymbolLoc sym.loc
  let data0 := db.getSymbolData id sym.name
  let data :=
    match defInfo with
    | some d =>
      { data0 with
        Decls := data0.Decls ++ [symLoc]
        DefAvail := true
        Def := getSymbolLoc d.loc }
    | none => { data0 with Decls := data0.Decls ++ [symLoc] }
  { db with
    SymLoc := db.SymLoc.insert symLoc id
    SymData := db.SymData.insert id data }

/-- `InsertSymbolDecl`. -/
def symbolsTUDB.InsertSymbolDecl (db : symbolsTUDB) (sym : symbolInfo) :
    symbolsTUDB :=
  db.insertSymbolDeclWithDef sym none

/-- `InsertSymbolDeclWithDef`. -/
def symbolsTUDB.InsertSymbolDeclWithDef (db : symbolsTUDB)
    (sym defInfo : symbolInfo) : symbolsTUDB :=
  db.insertSymbolDeclWithDef sym (some defInfo)

/-- Replace the last element of a list (used for the in-place merge of a use). -/
def replaceLast {α : Type} (l : List α) (a : α) : List α :=
  l.dropLast ++ [a]

/-- `InsertSymbolUse(sym, dec, funcCall)`: record a use of the symbol declared
at `dec`.  A location already bound to a different symbol is dropped; a repeat
of the last recorded use at the same location only ORs the `FuncCall` flag
(the Go code mutates the shared `Uses` backing array in place). -/
def symbolsTUDB.InsertSymbolUse (db : symbolsTUDB) (sym : symbolInfo)
    (dec : Option symbolInfo) (funcCall : Bool) : symbolsTUDB :=
  match dec with
  | none => db
  | some dec =>
    let id := getStringEncode dec.usr
    let symLoc := getSymbolLoc sym.loc
    let data := db.getSymbolData id sym.name
    let appendUse : symbolsTUDB :=
      { db with
        SymLoc := db.SymLoc.insert symLoc id
        SymData := db.SymData.insert id
          { data with Uses := data.Uses ++ [{ Loc := symLoc, FuncCall := funcCall }] } }
    match db.SymLoc.lookup symLoc with
    | some prevID =>
      if prevID ≠ id then db
      else
        match data.Uses.getLast? with
        | some lastUse =>
          if lastUse.Loc = symLoc then
            { db with
              SymData := db.SymData.insert id
                { data with
                  Uses := replaceLast data.Uses
                    { lastUse with FuncCall := lastUse.FuncCall || funcCall } } }
          else appendUse
        | none => appendUse
    | none => appendUse

/-- `InsertHeader(inclPath, headFile)`: record an included header.  The clang
file handle is `none` when the include could not be resolved; the phantom name
is used then, with a zero mtime. -/
def symbolsTUDB.InsertHeader (db : symbolsTUDB) (inclPath : String)
    (headFile : Option (String × Nat)) : symbolsTUDB :=
  let headData :=
    match headFile with
    | none => (nonExistingHeaderName (cleanPath inclPath), 0)
    | some (name, mtime) => (cleanPath name, mtime)
  { db with
    Headers := db.Headers.insert (getStringEncode headData.1) headData.2
    headersTUDB := db.headersTUDB.insert headData.1 true }

/-- The persisted image of a record: `gob` only encodes exported fields, so
the parse-time `headersTUDB` is absent after a round trip through disk. -/
def persistTUDB (t : symbolsTUDB) : symbolsTUDB :=
  { t with headersTUDB := SMap.empty }

/-! ### The symbol store (`symbolsDB` and its cache slots) -/

/-- `tuSymbolsDBCache`: one cache slot of the store.  `accTime`, a wall-clock
LRU stamp that only steers the flush cutoff, is not modelled; none of the
operations below reads it. -/
structure tuSymbolsDBCache where
  tudb : Option symbolsTUDB
  Mtime : Nat
  Path : String
  dirty : Bool
deriving DecidableEq

/-- `symbolsDB` together with the database directory.  `TUDBs` is the
in-memory index; `disk` holds the per-TU files of the db directory, keyed by
the same fileID that names them on disk. -/
structure symbolsDB where
  TUDBs : SMap String tuSymbolsDBCache
  disk : SMap String symbolsTUDB
deriving DecidableEq

def symbolsDB.empty : symbolsDB := ⟨SMap.empty, SMap.empty⟩

/-- `GetSymbolsTUDB`: fetch a record, loading (and caching) it from disk when
the slot holds no decoded record. -/
def symbolsDB.GetSymbolsTUDB (s : symbolsDB) (fid : String) :
    Except String (symbolsTUDB × symbolsDB) :=
  match s.TUDBs.lookup fid with
  | none => .error "File not in DB"
  | some cache =>
    match cache.tudb with
    | some t => .ok (t, s)
    | none =>
      match s.disk.lookup fid with
      | none => .error "cannot open db file"
      | some t =>
        .ok (t, { s with TUDBs := s.TUDBs.insert fid { cache with tudb := some t } })

/-- Update an existing slot in place (no-op when the key is absent). -/
def symbolsDB.modifySlot (s : symbolsDB) (fid : String)
    (f : tuSymbolsDBCache → tuSymbolsDBCache) : symbolsDB :=
  match s.TUDBs.lookup fid with
  | none => s
  | some c => { s with TUDBs := s.TUDBs.insert fid (f c) }

/-- `removeFileFromHeader(headerID, fid)`: drop `fid` from the header record's
includer set (marking the slot dirty); delete the header record entirely, in
memory and on disk, when its includer set becomes empty.  The final state is
returned together with the error, mirroring the partial mutation in Go. -/
def symbolsDB.removeFileFromHeader (s : symbolsDB) (headerID fid : String) :
    symbolsDB × Option String :=
  match s.GetSymbolsTUDB headerID with
  | .error e => (s, some e)
  | .ok (tudb, s1) =>
    let tudb2 := { tudb with Includers := tudb.Includers.erase fid }
    let s2 := s1.modifySlot headerID
      (fun c => { c with tudb := some tudb2, dirty := true })
    if tudb2.Includers.isEmpty then
      ({ s2 with
          TUDBs := s2.TUDBs.erase headerID
          disk := s2.disk.erase headerID }, none)
    else (s2, none)

/-- The `for h := range tudb.Headers` loop of `RemoveFileReferences`,
returning early on the first error. -/
def removeHeadersLoop (s : symbolsDB) (fid : String) :
    List String → symbolsDB × Option String
  | [] => (s, none)
  | h :: rest =>
    match s.removeFileFromHeader h fid with
    | (s2, some e) => (s2, some e)
    | (s2, none) => removeHeadersLoop s2 fid rest

/-- `RemoveFileReferences(file)`: unlink the file from every header it
mentions, then delete its own entry and db file. -/
def symbolsDB.RemoveFileReferences (s : symbolsDB) (file : String) :
    symbolsDB × Option String :=
  let fileSha1 := getStringEncode file
  match s.GetSymbolsTUDB fileSha1 with
  | .error e => (s, some e)
  | .ok (tudb, s1) =>
    match removeHeadersLoop s1 fileSha1 tudb.Headers.keys with
    | (s2, some e) => (s2, some e)
    | (s2, none) =>
      ({ s2 with
          TUDBs := s2.TUDBs.erase fileSha1
          disk := s2.disk.erase fileSha1 }, none)

/-- How a call to `InsertTUDB` ends: normally, in `log.Panic` (the stale-parse
inversion), or in a propagated error. -/
inductive insertOutcome where
  | ok
  | panicked
  | ioError (e : String)
deriving DecidableEq

/-- The `for header := range tudb.headersTUDB` loop of `InsertTUDB`: register
the inserting file in every mentioned header record, creating missing header
records (dirty, in memory only) with the mtime recorded for them. -/
def insertHeadersLoop (s : symbolsDB) (fileSha1 : String) (tudb : symbolsTUDB) :
    List String → symbolsDB × Option String
  | [] => (s, none)
  | header :: rest =>
    let headerSha1 := getStringEncode header
    match s.TUDBs.lookup headerSha1 with
    | none =>
      let htudb := newSymbolsTUDB header ((tudb.Headers.lookup headerSha1).getD 0)
      let htudb2 := { htudb with Includers := htudb.Includers.insert fileSha1 true }
      let hcache : tuSymbolsDBCache :=
        { tudb := some htudb2, Mtime := htudb.Mtime, Path := htudb.File,
          dirty := true }
      insertHeadersLoop { s with TUDBs := s.TUDBs.insert headerSha1 hcache }
        fileSha1 tudb rest
    | some _ =>
      match s.GetSymbolsTUDB headerSha1 with
      | .error e => (s, some e)
      | .ok (htudb, s1) =>
        let htudb2 :=
          { htudb with Includers := htudb.Includers.insert fileSha1 true }
        let s2 := s1.modifySlot headerSha1
          (fun c => { c with tudb := some htudb2, dirty := true })
        insertHeadersLoop s2 fileSha1 tudb rest

/-- The tail of `InsertTUDB` after the stale check and removal: header loop,
then rename of the staged file into place and installation of a fresh slot. -/
def insertTUDBBody (s : symbolsDB) (fileSha1 : String) (tudb : symbolsTUDB) :
    symbolsDB × insertOutcome :=
  match insertHeadersLoop s fileSha1 tudb tudb.headersTUDB.keys with
  | (s2, some e) => (s2, .ioError e)
  | (s2, none) =>
    ({ s2 with
        TUDBs := s2.TUDBs.insert fileSha1
          { tudb := none, Mtime := tudb.Mtime, Path := tudb.File, dirty := false }
        disk := s2.disk.insert fileSha1 (persistTUDB tudb) }, .ok)

/-- `InsertTUDB(tudb)`: panic if a strictly newer record is already stored;
otherwise remove the old record (ignoring errors, as the Go code does) and
install the new one. -/
def symbolsDB.InsertTUDB (s : symbolsDB) (tudb : symbolsTUDB) :
    symbolsDB × insertOutcome :=
  let fileSha1 := getStringEncode tudb.File
  match s.TUDBs.lookup fileSha1 with
  | some otudb =>
    if otudb.Mtime > tudb.Mtime then (s, .panicked)
    else insertTUDBBody (s.RemoveFileReferences tudb.File).1 fileSha1 tudb
  | none => insertTUDBBody s fileSha1 tudb

/-- `GetSetFilesInDB`: paths of all slots whose recorded mtime is non-zero
("false files", the phantom headers, are skipped). -/
def symbolsDB.GetSetFilesInDB (s : symbolsDB) : List String :=
  s.TUDBs.entries.filterMap
    (fun p => if p.2.Mtime = 0 then none else some p.2.Path)

/-- The record a lookup would observe: the decoded one when cached, otherwise
whatever the db file holds.  `GetSymbolsTUDB` succeeds exactly when this is
`some`, and its cache fill never changes it. -/
def symbolsDB.getRecord (s : symbolsDB) (fid : String) : Option symbolsTUDB :=
  match s.TUDBs.lookup fid with
  | none => none
  | some c =>
    match c.tudb with
    | some t => some t
    | none => s.disk.lookup fid

/-! ### Map lemmas used by the operation characterizations -/

theorem SMap.erase_insert_self {K V : Type} [KOrd K] [DecidableEq K]
    (m : SMap K V) (k : K) (v : V) : (m.insert k v).erase k = m.erase k := by
  apply SMap.ext_lookup
  intro q
  by_cases h : q = k
  · subst h
    rw [SMap.lookup_erase_self, SMap.lookup_erase_self]
  · rw [SMap.lookup_erase_ne _ h, SMap.lookup_erase_ne _ h,
      SMap.lookup_insert_ne _ _ h]

theorem sorted_keys_nodup {K V : Type} [KOrd K] :
    ∀ {l : List (K × V)}, sortedKeysB l = true → (l.map Prod.fst).Nodup := by
  intro l
  induction l with
  | nil => intro _; exact List.nodup_nil
  | cons p t ih =>
    intro hs
    rcases p with ⟨a, w⟩
    simp only [List.map_cons]
    apply List.Nodup.cons
    · intro hmem
      rcases List.mem_map.mp hmem with ⟨q, hq, hq2⟩
      have := sorted_head_lt hs q hq
      rw [hq2] at this
      exact KOrd.ne_of_ltb this rfl
    · exact ih (sortedKeysB_tail hs)

theorem SMap.keys_nodup {K V : Type} [KOrd K] (m : SMap K V) : m.keys.Nodup :=
  sorted_keys_nodup m.swf

theorem slookup_eq_some_iff_mem {K V : Type} [KOrd K] [DecidableEq K] {k : K}
    {v : V} : ∀ {l : List (K × V)}, sortedKeysB l = true →
    (slookup k l = some v ↔ (k, v) ∈ l) := by
  intro l
  induction l with
  | nil => intro _; simp [slookup]
  | cons p t ih =>
    intro hs
    rcases p with ⟨a, w⟩
    by_cases h : k = a
    · subst h
      have hl : slookup k ((k, w) :: t) = some w := by simp [slookup]
      rw [hl]
      constructor
      · intro hv
        rw [Option.some.injEq] at hv
        subst hv
        exact List.mem_cons_self _ _
      · intro hv
        rcases List.mem_cons.mp hv with hv | hv
        · have hvw : v = w := ((Prod.mk.injEq _ _ _ _).mp hv).2
          rw [hvw]
      
        · exfalso
          have hlt := sorted_head_lt hs (k, v) hv
          exact KOrd.ne_of_ltb hlt rfl
    · have hl : slookup k ((a, w) :: t) = slookup k t := by simp [slookup, h]
      rw [hl, ih (sortedKeysB_tail hs)]
      constructor
      · intro hv
        exact List.mem_cons_of_mem _ hv
      · intro hv
        rcases List.mem_cons.mp hv with hv | hv
        · exact absurd ((Prod.mk.injEq _ _ _ _).mp hv).1 h
        · exact hv

theorem SMap.lookup_eq_some_iff_mem {K V : Type} [KOrd K] [DecidableEq K]
    {m : SMap K V} {k : K} {v : V} :
    m.lookup k = some v ↔ (k, v) ∈ m.entries :=
  slookup_eq_some_iff_mem m.swf

theorem SMap.mem_keys_iff {K V : Type} [KOrd K] [DecidableEq K]
    {m : SMap K V} {k : K} : k ∈ m.keys ↔ ∃ v, m.lookup k = some v := by
  constructor
  · intro h
    cases hv : m.lookup k with
    | some v => exact ⟨v, rfl⟩
    | none => exact absurd h ((SMap.lookup_none_iff m k).mp hv)
  · intro ⟨v, hv⟩
    by_contra hk
    rw [(SMap.lookup_none_iff m k).mpr hk] at hv
    exact Option.noConfusion hv

/-! ### Effect characterizations of the store operations -/

theorem GetSymbolsTUDB_absent {s : symbolsDB} {fid : String}
    (h : s.TUDBs.lookup fid = none) :
    s.GetSymbolsTUDB fid = .error "File not in DB" := by
  unfold symbolsDB.GetSymbolsTUDB
  rw [h]

theorem GetSymbolsTUDB_cached {s : symbolsDB} {fid : String}
    {c : tuSymbolsDBCache} {t : symbolsTUDB}
    (h1 : s.TUDBs.lookup fid = some c) (h2 : c.tudb = some t) :
    s.GetSymbolsTUDB fid = .ok (t, s) := by
  unfold symbolsDB.GetSymbolsTUDB
  rw [h1]
  dsimp only
  rw [h2]

theorem GetSymbolsTUDB_load {s : symbolsDB} {fid : String}
    {c : tuSymbolsDBCache} {t : symbolsTUDB}
    (h1 : s.TUDBs.lookup fid = some c) (h2 : c.tudb = none)
    (h3 : s.disk.lookup fid = some t) :
    s.GetSymbolsTUDB fid =
      .ok (t, { s with TUDBs := s.TUDBs.insert fid { c with tudb := some t } }) := by
  unfold symbolsDB.GetSymbolsTUDB
  rw [h1]
  dsimp only
  rw [h2]
  dsimp only
  rw [h3]

theorem GetSymbolsTUDB_nofile {s : symbolsDB} {fid : String}
    {c : tuSymbolsDBCache}
    (h1 : s.TUDBs.lookup fid = some c) (h2 : c.tudb = none)
    (h3 : s.disk.lookup fid = none) :
    s.GetSymbolsTUDB fid = .error "cannot open db file" := by
  unfold symbolsDB.GetSymbolsTUDB
  rw [h1]
  dsimp only
  rw [h2]
  dsimp only
  rw [h3]

theorem getRecord_eq_some {s : symbolsDB} {fid : String} {c : tuSymbolsDBCache}
    (h1 : s.TUDBs.lookup fid = some c) :
    s.getRecord fid = (match c.tudb with
      | some t => some t
      | none => s.disk.lookup fid) := by
  unfold symbolsDB.getRecord
  rw [h1]

/-- `removeFileFromHeader` on a header whose slot and record are available:
the includer set loses `fid`; the record dies (memory and disk) exactly when
the remaining includer set is empty. -/
theorem removeFileFromHeader_spec {s : symbolsDB} {hid fid : String}
    {c : tuSymbolsDBCache} {ht : symbolsTUDB}
    (h1 : s.TUDBs.lookup hid = some c) (hrec : s.getRecord hid = some ht) :
    s.removeFileFromHeader hid fid =
      (if (ht.Includers.erase fid).isEmpty then
        { TUDBs := s.TUDBs.erase hid, disk := s.disk.erase hid }
      else
        { TUDBs := s.TUDBs.insert hid
            { c with
              tudb := some { ht with Includers := ht.Includers.erase fid }
              dirty := true }
          disk := s.disk }, none) := by
  rw [getRecord_eq_some h1] at hrec
  unfold symbolsDB.removeFileFromHeader
  cases hct : c.tudb with
  | some t =>
    rw [hct] at hrec
    dsimp only at hrec
    rw [Option.some.injEq] at hrec
    rw [hrec] at hct
    rw [GetSymbolsTUDB_cached h1 hct]
    dsimp only
    unfold symbolsDB.modifySlot
    rw [h1]
    dsimp only
    by_cases he : ((ht.Includers.erase fid).isEmpty : Bool) = true
    · rw [if_pos he, if_pos he]
      rw [SMap.erase_insert_self]
    · rw [if_neg he, if_neg he]
  | none =>
    rw [hct] at hrec
    dsimp only at hrec
    rw [GetSymbolsTUDB_load h1 hct hrec]
    dsimp only
    unfold symbolsDB.modifySlot
    rw [SMap.lookup_insert_self]
    dsimp only
    by_cases he : ((ht.Includers.erase fid).isEmpty : Bool) = true
    · rw [if_pos he, if_pos he]
      rw [SMap.insert_insert_same, SMap.erase_insert_self]
    · rw [if_neg he, if_neg he]
      rw [SMap.insert_insert_same]

theorem getRecord_congr {s1 s2 : symbolsDB} {fid : String}
    (h1 : s1.TUDBs.lookup fid = s2.TUDBs.lookup fid)
    (h2 : s1.disk.lookup fid = s2.disk.lookup fid) :
    s1.getRecord fid = s2.getRecord fid := by
  unfold symbolsDB.getRecord
  rw [h1, h2]

/-- Aggregate effect of the header loop of `RemoveFileReferences`: when every
listed header has a live slot and a readable record, the loop succeeds, leaves
every other key alone, and rewrites each listed header as
`removeFileFromHeader` does. -/
theorem removeHeadersLoop_spec (fid : String) :
    ∀ (hs : List String) (s : symbolsDB), hs.Nodup →
    (∀ h ∈ hs, ∃ c ht, s.TUDBs.lookup h = some c ∧ s.getRecord h = some ht) →
    (removeHeadersLoop s fid hs).2 = none ∧
    (∀ q, q ∉ hs →
      (removeHeadersLoop s fid hs).1.TUDBs.lookup q = s.TUDBs.lookup q ∧
      (removeHeadersLoop s fid hs).1.disk.lookup q = s.disk.lookup q) ∧
    (∀ h, h ∈ hs → ∀ c ht, s.TUDBs.lookup h = some c → s.getRecord h = some ht →
      (if (ht.Includers.erase fid).isEmpty then
        (removeHeadersLoop s fid hs).1.TUDBs.lookup h = none ∧
        (removeHeadersLoop s fid hs).1.disk.lookup h = none
      else
        (removeHeadersLoop s fid hs).1.TUDBs.lookup h =
          some { c with
            tudb := some { ht with Includers := ht.Includers.erase fid }
            dirty := true } ∧
        (removeHeadersLoop s fid hs).1.disk.lookup h = s.disk.lookup h)) := by
  intro hs
  induction hs with
  | nil =>
    intro s _ _
    refine ⟨rfl, ?_, ?_⟩
    · intro q _
      exact ⟨rfl, rfl⟩
    · intro h hmem
      exact absurd hmem (List.not_mem_nil h)
  | cons h rest ih =>
    intro s hnodup hgood
    obtain ⟨c, ht, hc, hr⟩ := hgood h (List.mem_cons_self h rest)
    have hstep := @removeFileFromHeader_spec s h fid c ht hc hr
    have hnotin : h ∉ rest := (List.nodup_cons.mp hnodup).1
    set s2 := (if (ht.Includers.erase fid).isEmpty then
          ({ TUDBs := s.TUDBs.erase h, disk := s.disk.erase h } : symbolsDB)
        else
          { TUDBs := s.TUDBs.insert h
              { c with
                tudb := some { ht with Includers := ht.Includers.erase fid }
                dirty := true }
            disk := s.disk }) with hs2eq
    have hloop : removeHeadersLoop s fid (h :: rest) =
        removeHeadersLoop s2 fid rest := by
      simp only [removeHeadersLoop, hstep]
    have hs2ne : ∀ q, q ≠ h →
        s2.TUDBs.lookup q = s.TUDBs.lookup q ∧
        s2.disk.lookup q = s.disk.lookup q := by
      intro q hq
      rw [hs2eq]
      by_cases he : ((ht.Includers.erase fid).isEmpty : Bool) = true
      · rw [if_pos he]
        exact ⟨SMap.lookup_erase_ne _ hq, SMap.lookup_erase_ne _ hq⟩
      · rw [if_neg he]
        exact ⟨SMap.lookup_insert_ne _ _ hq, rfl⟩
    have hgood2 : ∀ h2 ∈ rest, ∃ c2 ht2,
        s2.TUDBs.lookup h2 = some c2 ∧ s2.getRecord h2 = some ht2 := by
      intro h2 hmem
      obtain ⟨c2, ht2, hc2, hr2⟩ := hgood h2 (List.mem_cons_of_mem h hmem)
      have hne : h2 ≠ h := fun he => hnotin (he ▸ hmem)
      obtain ⟨e1, e2⟩ := hs2ne h2 hne
      refine ⟨c2, ht2, e1.trans hc2, ?_⟩
      rw [getRecord_congr e1 e2]
      exact hr2
    obtain ⟨ihA, ihB, ihC⟩ := ih s2 (List.nodup_cons.mp hnodup).2 hgood2
    refine ⟨?_, ?_, ?_⟩
    · rw [hloop]
      exact ihA
    · intro q hq
      have hq1 : q ≠ h := fun he => hq (he ▸ List.mem_cons_self h rest)
      have hq2 : q ∉ rest := fun hm => hq (List.mem_cons_of_mem h hm)
      obtain ⟨e1, e2⟩ := ihB q hq2
      obtain ⟨f1, f2⟩ := hs2ne q hq1
      rw [hloop]
      exact ⟨e1.trans f1, e2.trans f2⟩
    · intro h3 hmem c3 ht3 hc3 hr3
      rcases List.mem_cons.mp hmem with he3 | hm3
      · subst he3
        rw [hc] at hc3
        rw [Option.some.injEq] at hc3
        rw [hr] at hr3
        rw [Option.some.injEq] at hr3
        subst hc3
        subst hr3
        obtain ⟨e1, e2⟩ := ihB h3 hnotin
        rw [hloop]
        by_cases he : ((ht.Includers.erase fid).isEmpty : Bool) = true
        · rw [if_pos he]
          constructor
          · rw [e1, hs2eq, if_pos he]
            exact SMap.lookup_erase_self _ _
          · rw [e2, hs2eq, if_pos he]
            exact SMap.lookup_erase_self _ _
        · rw [if_neg he]
          constructor
          · rw [e1, hs2eq, if_neg he]
            exact SMap.lookup_insert_self _ _ _
          · rw [e2, hs2eq, if_neg he]
      · have hne : h3 ≠ h := fun he => hnotin (he ▸ hm3)
        obtain ⟨f1, f2⟩ := hs2ne h3 hne
        have hc3b : s2.TUDBs.lookup h3 = some c3 := f1.trans hc3
        have hr3b : s2.getRecord h3 = some ht3 := by
          rw [getRecord_congr f1 f2]
          exact hr3
        have := ihC h3 hm3 c3 ht3 hc3b hr3b
        rw [hloop]
        by_cases he : ((ht3.Includers.erase fid).isEmpty : Bool) = true
        · rw [if_pos he]
          rw [if_pos he] at this
          exact this
        · rw [if_neg he]
          rw [if_neg he] at this
          obtain ⟨g1, g2⟩ := this
          exact ⟨g1, g2.trans f2⟩

/-- Full effect of `RemoveFileReferences(file)` when the file is present, its
record is readable, the file is not its own header, and every header of the
record is present with a readable record. -/
theorem RemoveFileReferences_spec {s : symbolsDB} {file : String}
    {cF : tuSymbolsDBCache} {tF : symbolsTUDB}
    (hc : s.TUDBs.lookup (getStringEncode file) = some cF)
    (hr : s.getRecord (getStringEncode file) = some tF)
    (hfid : getStringEncode file ∉ tF.Headers.keys)
    (hgood : ∀ h ∈ tF.Headers.keys,
      ∃ c ht, s.TUDBs.lookup h = some c ∧ s.getRecord h = some ht) :
    (s.RemoveFileReferences file).2 = none ∧
    (s.RemoveFileReferences file).1.TUDBs.lookup (getStringEncode file) = none ∧
    (s.RemoveFileReferences file).1.disk.lookup (getStringEncode file) = none ∧
    (∀ q, q ∉ tF.Headers.keys → q ≠ getStringEncode file →
      (s.RemoveFileReferences file).1.TUDBs.lookup q = s.TUDBs.lookup q ∧
      (s.RemoveFileReferences file).1.disk.lookup q = s.disk.lookup q) ∧
    (∀ h ∈ tF.Headers.keys, ∀ c ht,
      s.TUDBs.lookup h = some c → s.getRecord h = some ht →
      (if (ht.Includers.erase (getStringEncode file)).isEmpty then
        (s.RemoveFileReferences file).1.TUDBs.lookup h = none ∧
        (s.RemoveFileReferences file).1.disk.lookup h = none
      else
        (s.RemoveFileReferences file).1.TUDBs.lookup h =
          some { c with
            tudb := some
              { ht with Includers := ht.Includers.erase (getStringEncode file) }
            dirty := true } ∧
        (s.RemoveFileReferences file).1.disk.lookup h = s.disk.lookup h)) := by
  set fid := getStringEncode file with hfiddef
  have hs1 : ∃ s1, s.GetSymbolsTUDB fid = .ok (tF, s1) ∧
      (∀ q, q ≠ fid → s1.TUDBs.lookup q = s.TUDBs.lookup q ∧
        s1.disk.lookup q = s.disk.lookup q) ∧
      s1.disk.lookup fid = s.disk.lookup fid := by
    rw [getRecord_eq_some hc] at hr
    cases hct : cF.tudb with
    | some t =>
      rw [hct] at hr
      dsimp only at hr
      rw [Option.some.injEq] at hr
      rw [hr] at hct
      refine ⟨s, GetSymbolsTUDB_cached hc hct, ?_, rfl⟩
      intro q _
      exact ⟨rfl, rfl⟩
    | none =>
      rw [hct] at hr
      dsimp only at hr
      refine ⟨_, GetSymbolsTUDB_load hc hct hr, ?_, rfl⟩
      intro q hq
      exact ⟨SMap.lookup_insert_ne _ _ hq, rfl⟩
  obtain ⟨s1, hget, hs1ne, hs1disk⟩ := hs1
  have hgood1 : ∀ h ∈ tF.Headers.keys,
      ∃ c ht, s1.TUDBs.lookup h = some c ∧ s1.getRecord h = some ht := by
    intro h hmem
    obtain ⟨c2, ht2, hc2, hr2⟩ := hgood h hmem
    have hne : h ≠ fid := fun he => hfid (he ▸ hmem)
    obtain ⟨e1, e2⟩ := hs1ne h hne
    exact ⟨c2, ht2, e1.trans hc2, (getRecord_congr e1 e2).trans hr2⟩
  obtain ⟨loopA, loopB, loopC⟩ :=
    removeHeadersLoop_spec fid tF.Headers.keys s1
      (SMap.keys_nodup tF.Headers) hgood1
  rcases hlp : removeHeadersLoop s1 fid tF.Headers.keys with ⟨sL, err⟩
  rw [hlp] at loopA loopB loopC
  dsimp only at loopA loopB loopC
  subst loopA
  have hrun : s.RemoveFileReferences file =
      ({ TUDBs := sL.TUDBs.erase fid, disk := sL.disk.erase fid }, none) := by
    unfold symbolsDB.RemoveFileReferences
    dsimp only
    rw [hget]
    dsimp only
    rw [hlp]
  rw [hrun]
  dsimp only
  refine ⟨rfl, SMap.lookup_erase_self _ _, SMap.lookup_erase_self _ _, ?_, ?_⟩
  · intro q hq1 hq2
    rw [SMap.lookup_erase_ne _ hq2, SMap.lookup_erase_ne _ hq2]
    obtain ⟨e1, e2⟩ := loopB q hq1
    obtain ⟨f1, f2⟩ := hs1ne q hq2
    exact ⟨e1.trans f1, e2.trans f2⟩
  · intro h hmem c ht hc2 hr2
    have hne : h ≠ fid := fun he => hfid (he ▸ hmem)
    obtain ⟨f1, f2⟩ := hs1ne h hne
    have hc3 : s1.TUDBs.lookup h = some c := f1.trans hc2
    have hr3 : s1.getRecord h = some ht := (getRecord_congr f1 f2).trans hr2
    have := loopC h hmem c ht hc3 hr3
    rw [SMap.lookup_erase_ne _ hne, SMap.lookup_erase_ne _ hne]
    by_cases he : ((ht.Includers.erase fid).isEmpty : Bool) = true
    · rw [if_pos he]
      rw [if_pos he] at this
      exact this
    · rw [if_neg he]
      rw [if_neg he] at this
      obtain ⟨g1, g2⟩ := this
      exact ⟨g1, g2.trans f2⟩

/-- The cache slot `InsertTUDB` creates for a header that was not in the
store: a fresh record carrying only the includer being inserted. -/
def freshHeaderCache (fileSha1 h : String) (mh : Nat) : tuSymbolsDBCache :=
  { tudb := some
      { newSymbolsTUDB h mh with
        Includers := (SMap.empty : SMap String Bool).insert fileSha1 true }
    Mtime := mh
    Path := h
    dirty := true }

/-- The cache slot `InsertTUDB` leaves for a header that was in the store:
same record with the inserting file added to the includers, marked dirty. -/
def joinedHeaderCache (fileSha1 : String) (c : tuSymbolsDBCache)
    (ht : symbolsTUDB) : tuSymbolsDBCache :=
  { c with
    tudb := some { ht with Includers := ht.Includers.insert fileSha1 true }
    dirty := true }

/-- Aggregate effect of the header loop of `InsertTUDB`: the loop succeeds
when every listed header is either absent (a fresh dirty header record is
created) or present with a readable record (the inserting file joins its
includer set); the disk and all other keys are untouched. -/
theorem insertHeadersLoop_spec (fileSha1 : String) (tudb : symbolsTUDB) :
    ∀ (hs : List String) (s : symbolsDB), hs.Nodup →
    (∀ h ∈ hs, s.TUDBs.lookup h = none ∨
      ∃ c ht, s.TUDBs.lookup h = some c ∧ s.getRecord h = some ht) →
    (insertHeadersLoop s fileSha1 tudb hs).2 = none ∧
    (insertHeadersLoop s fileSha1 tudb hs).1.disk = s.disk ∧
    (∀ q, q ∉ hs →
      (insertHeadersLoop s fileSha1 tudb hs).1.TUDBs.lookup q =
        s.TUDBs.lookup q) ∧
    (∀ h ∈ hs,
      (s.TUDBs.lookup h = none →
        (insertHeadersLoop s fileSha1 tudb hs).1.TUDBs.lookup h =
          some (freshHeaderCache fileSha1 h ((tudb.Headers.lookup h).getD 0))) ∧
      (∀ c ht, s.TUDBs.lookup h = some c → s.getRecord h = some ht →
        (insertHeadersLoop s fileSha1 tudb hs).1.TUDBs.lookup h =
          some (joinedHeaderCache fileSha1 c ht))) := by
  intro hs
  induction hs with
  | nil =>
    intro s _ _
    refine ⟨rfl, rfl, ?_, ?_⟩
    · intro q _
      rfl
    · intro h hmem
      exact absurd hmem (List.not_mem_nil h)
  | cons h rest ih =>
    intro s hnodup hgood
    have hnotin : h ∉ rest := (List.nodup_cons.mp hnodup).1
    have henc : getStringEncode h = h := rfl
    rcases hgood h (List.mem_cons_self h rest) with habs | ⟨c, ht, hc, hr⟩
    · -- the header record does not exist yet: a fresh one is created
      set hcache : tuSymbolsDBCache :=
        freshHeaderCache fileSha1 h ((tudb.Headers.lookup h).getD 0) with hcdef
      set s2 : symbolsDB := { s with TUDBs := s.TUDBs.insert h hcache } with hs2
      have hloop : insertHeadersLoop s fileSha1 tudb (h :: rest) =
          insertHeadersLoop s2 fileSha1 tudb rest := by
        simp only [insertHeadersLoop, henc, habs]
        rfl
      have hs2q : ∀ q, q ≠ h → s2.TUDBs.lookup q = s.TUDBs.lookup q := by
        intro q hq
        rw [hs2]
        exact SMap.lookup_insert_ne _ _ hq
      have hgood2 : ∀ h2 ∈ rest, s2.TUDBs.lookup h2 = none ∨
          ∃ c2 ht2, s2.TUDBs.lookup h2 = some c2 ∧ s2.getRecord h2 = some ht2 := by
        intro h2 hmem
        have hne : h2 ≠ h := fun he => hnotin (he ▸ hmem)
        rcases hgood h2 (List.mem_cons_of_mem h hmem) with habs2 | ⟨c2, ht2, hc2, hr2⟩
        · exact Or.inl ((hs2q h2 hne).trans habs2)
        · refine Or.inr ⟨c2, ht2, (hs2q h2 hne).trans hc2, ?_⟩
          have hdisk : s2.disk.lookup h2 = s.disk.lookup h2 := rfl
          exact (getRecord_congr (hs2q h2 hne) hdisk).trans hr2
      obtain ⟨ihA, ihD, ihB, ihC⟩ := ih s2 (List.nodup_cons.mp hnodup).2 hgood2
      refine ⟨?_, ?_, ?_, ?_⟩
      · rw [hloop]
        exact ihA
      · rw [hloop, ihD, hs2]
      · intro q hq
        have hq1 : q ≠ h := fun he => hq (he ▸ List.mem_cons_self h rest)
        have hq2 : q ∉ rest := fun hm => hq (List.mem_cons_of_mem h hm)
        rw [hloop]
        exact (ihB q hq2).trans (hs2q q hq1)
      · intro h3 hmem
        rcases List.mem_cons.mp hmem with he3 | hm3
        · subst he3
          constructor
          · intro _
            rw [hloop, ihB h3 hnotin, hs2]
            exact SMap.lookup_insert_self _ _ _
          · intro c3 ht3 hc3 _
            rw [habs] at hc3
            exact absurd hc3 (Option.noConfusion)
        · have hne : h3 ≠ h := fun he => hnotin (he ▸ hm3)
          constructor
          · intro habs3
            rw [hloop]
            exact ((ihC h3 hm3).1 ((hs2q h3 hne).trans habs3))
          · intro c3 ht3 hc3 hr3
            rw [hloop]
            refine (ihC h3 hm3).2 c3 ht3 ((hs2q h3 hne).trans hc3) ?_
            have hdisk : s2.disk.lookup h3 = s.disk.lookup h3 := rfl
            exact (getRecord_congr (hs2q h3 hne) hdisk).trans hr3
    · -- the header record exists: its includer set gains the file
      set s2 : symbolsDB :=
        { s with TUDBs := s.TUDBs.insert h (joinedHeaderCache fileSha1 c ht) } with hs2
      have hloop : insertHeadersLoop s fileSha1 tudb (h :: rest) =
          insertHeadersLoop s2 fileSha1 tudb rest := by
        rw [getRecord_eq_some hc] at hr
        cases hct : c.tudb with
        | some t =>
          rw [hct] at hr
          dsimp only at hr
          rw [Option.some.injEq] at hr
          rw [hr] at hct
          have hget := GetSymbolsTUDB_cached hc hct
          simp only [insertHeadersLoop, henc, hc, hget]
          unfold symbolsDB.modifySlot
          rw [hc]
          rw [hs2]
          dsimp only [joinedHeaderCache]
        | none =>
          rw [hct] at hr
          dsimp only at hr
          have hget := GetSymbolsTUDB_load hc hct hr
          simp only [insertHeadersLoop, henc, hc, hget]
          unfold symbolsDB.modifySlot
          rw [SMap.lookup_insert_self]
          dsimp only [joinedHeaderCache]
          rw [hs2, SMap.insert_insert_same]
          rfl
      have hs2q : ∀ q, q ≠ h → s2.TUDBs.lookup q = s.TUDBs.lookup q := by
        intro q hq
        rw [hs2]
        exact SMap.lookup_insert_ne _ _ hq
      have hgood2 : ∀ h2 ∈ rest, s2.TUDBs.lookup h2 = none ∨
          ∃ c2 ht3, s2.TUDBs.lookup h2 = some c2 ∧ s2.getRecord h2 = some ht3 := by
        intro h2 hmem
        have hne : h2 ≠ h := fun he => hnotin (he ▸ hmem)
        rcases hgood h2 (List.mem_cons_of_mem h hmem) with habs2 | ⟨c2, ht3, hc2, hr2⟩
        · exact Or.inl ((hs2q h2 hne).trans habs2)
        · refine Or.inr ⟨c2, ht3, (hs2q h2 hne).trans hc2, ?_⟩
          have hdisk : s2.disk.lookup h2 = s.disk.lookup h2 := rfl
          exact (getRecord_congr (hs2q h2 hne) hdisk).trans hr2
      obtain ⟨ihA, ihD, ihB, ihC⟩ := ih s2 (List.nodup_cons.mp hnodup).2 hgood2
      refine ⟨?_, ?_, ?_, ?_⟩
      · rw [hloop]
        exact ihA
      · rw [hloop, ihD, hs2]
      · intro q hq
        have hq1 : q ≠ h := fun he => hq (he ▸ List.mem_cons_self h rest)
        have hq2 : q ∉ rest := fun hm => hq (List.mem_cons_of_mem h hm)
        rw [hloop]
        exact (ihB q hq2).trans (hs2q q hq1)
      · intro h3 hmem
        rcases List.mem_cons.mp hmem with he3 | hm3
        · subst he3
          constructor
          · intro habs3
            rw [hc] at habs3
            exact absurd habs3 (Option.noConfusion)
          · intro c3 ht3 hc3 hr3
            rw [hc] at hc3
            rw [Option.some.injEq] at hc3
            rw [hr] at hr3
            rw [Option.some.injEq] at hr3
            subst hc3
            subst hr3
            rw [hloop, ihB h3 hnotin, hs2]
            exact SMap.lookup_insert_self _ _ _
        · have hne : h3 ≠ h := fun he => hnotin (he ▸ hm3)
          constructor
          · intro habs3
            rw [hloop]
            exact ((ihC h3 hm3).1 ((hs2q h3 hne).trans habs3))
          · intro c3 ht3 hc3 hr3
            rw [hloop]
            refine (ihC h3 hm3).2 c3 ht3 ((hs2q h3 hne).trans hc3) ?_
            have hdisk : s2.disk.lookup h3 = s.disk.lookup h3 := rfl
            exact (getRecord_congr (hs2q h3 hne) hdisk).trans hr3

/-- The slot `InsertTUDB` installs for the inserted file itself: no decoded
record cached, not dirty (the renamed file is already current). -/
def freshTUCache (t : symbolsTUDB) : tuSymbolsDBCache :=
  { tudb := none, Mtime := t.Mtime, Path := t.File, dirty := false }

theorem insertTUDBBody_spec {s : symbolsDB} {fid : String} {t : symbolsTUDB}
    (hgood : ∀ h ∈ t.headersTUDB.keys, s.TUDBs.lookup h = none ∨
      ∃ c ht, s.TUDBs.lookup h = some c ∧ s.getRecord h = some ht) :
    (insertTUDBBody s fid t).2 = .ok ∧
    (insertTUDBBody s fid t).1.TUDBs.lookup fid = some (freshTUCache t) ∧
    (insertTUDBBody s fid t).1.disk.lookup fid = some (persistTUDB t) ∧
    (∀ q, q ≠ fid →
      (insertTUDBBody s fid t).1.disk.lookup q = s.disk.lookup q) ∧
    (∀ q, q ≠ fid → q ∉ t.headersTUDB.keys →
      (insertTUDBBody s fid t).1.TUDBs.lookup q = s.TUDBs.lookup q) ∧
    (∀ h ∈ t.headersTUDB.keys, h ≠ fid →
      (s.TUDBs.lookup h = none →
        (insertTUDBBody s fid t).1.TUDBs.lookup h =
          some (freshHeaderCache fid h ((t.Headers.lookup h).getD 0))) ∧
      (∀ c ht, s.TUDBs.lookup h = some c → s.getRecord h = some ht →
        (insertTUDBBody s fid t).1.TUDBs.lookup h =
          some (joinedHeaderCache fid c ht))) := by
  obtain ⟨loopA, loopD, loopB, loopC⟩ :=
    insertHeadersLoop_spec fid t t.headersTUDB.keys s
      (SMap.keys_nodup t.headersTUDB) hgood
  rcases hlp : insertHeadersLoop s fid t t.headersTUDB.keys with ⟨sL, err⟩
  rw [hlp] at loopA loopD loopB loopC
  dsimp only at loopA loopD loopB loopC
  subst loopA
  have hrun : insertTUDBBody s fid t =
      ({ TUDBs := sL.TUDBs.insert fid (freshTUCache t)
         disk := sL.disk.insert fid (persistTUDB t) }, .ok) := by
    unfold insertTUDBBody
    rw [hlp]
    rfl
  rw [hrun]
  dsimp only
  refine ⟨rfl, SMap.lookup_insert_self _ _ _, SMap.lookup_insert_self _ _ _,
    ?_, ?_, ?_⟩
  · intro q hq
    rw [SMap.lookup_insert_ne _ _ hq, loopD]
  · intro q hq1 hq2
    rw [SMap.lookup_insert_ne _ _ hq1]
    exact loopB q hq2
  · intro h hmem hne
    constructor
    · intro habs
      rw [SMap.lookup_insert_ne _ _ hne]
      exact (loopC h hmem).1 habs
    · intro c ht hc hr
      rw [SMap.lookup_insert_ne _ _ hne]
      exact (loopC h hmem).2 c ht hc hr

theorem InsertTUDB_absent {s : symbolsDB} {t : symbolsTUDB}
    (h : s.TUDBs.lookup (getStringEncode t.File) = none) :
    s.InsertTUDB t = insertTUDBBody s (getStringEncode t.File) t := by
  unfold symbolsDB.InsertTUDB
  dsimp only
  rw [h]

theorem InsertTUDB_fresh {s : symbolsDB} {t : symbolsTUDB}
    {otudb : tuSymbolsDBCache}
    (h : s.TUDBs.lookup (getStringEncode t.File) = some otudb)
    (hm : ¬ otudb.Mtime > t.Mtime) :
    s.InsertTUDB t =
      insertTUDBBody (s.RemoveFileReferences t.File).1
        (getStringEncode t.File) t := by
  unfold symbolsDB.InsertTUDB
  dsimp only
  rw [h]
  dsimp only
  rw [if_neg hm]

theorem InsertTUDB_stale {s : symbolsDB} {t : symbolsTUDB}
    {otudb : tuSymbolsDBCache}
    (h : s.TUDBs.lookup (getStringEncode t.File) = some otudb)
    (hm : otudb.Mtime > t.Mtime) :
    s.InsertTUDB t = (s, .panicked) := by
  unfold symbolsDB.InsertTUDB
  dsimp only
  rw [h]
  dsimp only
  rw [if_pos hm]

/-! ### Concrete example records, used by the witnesses -/

def exTUa : symbolsTUDB :=
  (newSymbolsTUDB "a.c" 100).InsertHeader "a.h" (some ("a.h", 90))

def exTUb : symbolsTUDB :=
  (newSymbolsTUDB "b.c" 100).InsertHeader "a.h" (some ("a.h", 90))

def exStore2 : symbolsDB :=
  ((symbolsDB.empty.InsertTUDB exTUa).1.InsertTUDB exTUb).1

def exTUaStale : symbolsTUDB := newSymbolsTUDB "a.c" 50

/-! ### C1: a stale insertion panics and leaves the newer record in place -/

/-- C1: when the store already holds a record for the same file whose mtime is
strictly newer than the incoming record's, `InsertTUDB` takes the
`log.Panic("Inserting older tudb")` path: it fails loudly, no part of the
store (memory or disk) is modified, and the newer record's slot is intact. -/
theorem navc_C1_stale_insert_panics (s : symbolsDB) (t : symbolsTUDB)
    (otudb : tuSymbolsDBCache)
    (hfound : s.TUDBs.lookup (getStringEncode t.File) = some otudb)
    (hnewer : otudb.Mtime > t.Mtime) :
    s.InsertTUDB t = (s, .panicked) ∧
    (s.InsertTUDB t).1.TUDBs.lookup (getStringEncode t.File) = some otudb := by
  have h := InsertTUDB_stale hfound hnewer
  refine ⟨h, ?_⟩
  rw [h]
  exact hfound

/-- C1 witness: a store holding `a.c` at mtime 100 panics on a parse of `a.c`
with mtime 50 and keeps its state. -/
theorem navc_C1_witness :
    exStore2.InsertTUDB exTUaStale = (exStore2, .panicked) ∧
    (exStore2.InsertTUDB exTUaStale).1.TUDBs.lookup
      (getStringEncode exTUaStale.File) = some (freshTUCache exTUa) :=
  navc_C1_stale_insert_panics exStore2 exTUaStale (freshTUCache exTUa)
    (by decide) (by decide)

/-! ### C2: the remove protocol -/

/-- C2: `RemoveFileReferences(F)` on a file that is present with a readable
record — and whose headers are all present with readable records, `F` not
being its own header — succeeds; afterwards each header `H` of `F`'s record
has lost `F` from its includer set, `H`'s record was deleted (from the index
and from disk) exactly when that set became empty and was otherwise kept
(dirty, with only the includers changed), `F`'s own entry and db file are
gone, and nothing else changed. -/
theorem navc_C2_remove_file_references (s : symbolsDB) (file : String)
    (cF : tuSymbolsDBCache) (tF : symbolsTUDB)
    (hc : s.TUDBs.lookup (getStringEncode file) = some cF)
    (hr : s.getRecord (getStringEncode file) = some tF)
    (hfid : getStringEncode file ∉ tF.Headers.keys)
    (hgood : ∀ h ∈ tF.Headers.keys,
      ∃ c ht, s.TUDBs.lookup h = some c ∧ s.getRecord h = some ht) :
    (s.RemoveFileReferences file).2 = none ∧
    (s.RemoveFileReferences file).1.TUDBs.lookup (getStringEncode file) = none ∧
    (s.RemoveFileReferences file).1.disk.lookup (getStringEncode file) = none ∧
    (∀ q, q ∉ tF.Headers.keys → q ≠ getStringEncode file →
      (s.RemoveFileReferences file).1.TUDBs.lookup q = s.TUDBs.lookup q ∧
      (s.RemoveFileReferences file).1.disk.lookup q = s.disk.lookup q) ∧
    (∀ h ∈ tF.Headers.keys, ∀ c ht,
      s.TUDBs.lookup h = some c → s.getRecord h = some ht →
      (if (ht.Includers.erase (getStringEncode file)).isEmpty then
        (s.RemoveFileReferences file).1.TUDBs.lookup h = none ∧
        (s.RemoveFileReferences file).1.disk.lookup h = none
      else
        (s.RemoveFileReferences file).1.TUDBs.lookup h =
          some { c with
            tudb := some
              { ht with Includers := ht.Includers.erase (getStringEncode file) }
            dirty := true } ∧
        (s.RemoveFileReferences file).1.disk.lookup h = s.disk.lookup h)) :=
  RemoveFileReferences_spec hc hr hfid hgood

/-- C2 witness: removing `a.c` from the two-TU store; `a.h` survives with only
`b.c` left in its includer set. -/
theorem navc_C2_witness :
    (exStore2.RemoveFileReferences "a.c").2 = none ∧
    (exStore2.RemoveFileReferences "a.c").1.TUDBs.lookup
      (getStringEncode "a.c") = none ∧
    (exStore2.RemoveFileReferences "a.c").1.disk.lookup
      (getStringEncode "a.c") = none ∧
    (∀ q, q ∉ (persistTUDB exTUa).Headers.keys → q ≠ getStringEncode "a.c" →
      (exStore2.RemoveFileReferences "a.c").1.TUDBs.lookup q =
        exStore2.TUDBs.lookup q ∧
      (exStore2.RemoveFileReferences "a.c").1.disk.lookup q =
        exStore2.disk.lookup q) ∧
    (∀ h ∈ (persistTUDB exTUa).Headers.keys, ∀ c ht,
      exStore2.TUDBs.lookup h = some c → exStore2.getRecord h = some ht →
      (if (ht.Includers.erase (getStringEncode "a.c")).isEmpty then
        (exStore2.RemoveFileReferences "a.c").1.TUDBs.lookup h = none ∧
        (exStore2.RemoveFileReferences "a.c").1.disk.lookup h = none
      else
        (exStore2.RemoveFileReferences "a.c").1.TUDBs.lookup h =
          some { c with
            tudb := some
              { ht with Includers := ht.Includers.erase (getStringEncode "a.c") }
            dirty := true } ∧
        (exStore2.RemoveFileReferences "a.c").1.disk.lookup h =
          exStore2.disk.lookup h)) :=
  navc_C2_remove_file_references exStore2 "a.c" (freshTUCache exTUa)
    (persistTUDB exTUa) (by decide) (by decide) (by decide) (by
      have hks : ∀ h ∈ (persistTUDB exTUa).Headers.keys,
          (exStore2.TUDBs.lookup h).isSome = true ∧
          (exStore2.getRecord h).isSome = true := by decide
      intro h hmem
      obtain ⟨c, hc⟩ := Option.isSome_iff_exists.mp (hks h hmem).1
      obtain ⟨ht, hr⟩ := Option.isSome_iff_exists.mp (hks h hmem).2
      exact ⟨c, ht, hc, hr⟩)

/-! ### C4: use insertion at an already-registered location -/

/-- The merged node: same data, last use's `FuncCall` OR-ed with the new one. -/
def mergedUseData (data : symbolData) (u : symbolUse) (fc : Bool) : symbolData :=
  { data with
    Uses := replaceLast data.Uses { u with FuncCall := u.FuncCall || fc } }

/-- C4: when `InsertSymbolUse` hits a location already present in `SymLoc`:
with a different owning symbol ID the new use is dropped and the record is
unchanged; with the same ID and the previously recorded use at the same
location, the existing entry's `FuncCall` becomes the OR of old and new and
nothing is appended (`SymLoc` untouched, `Uses` same length, last entry
merged). -/
theorem navc_C4_insert_symbol_use (t : symbolsTUDB) (sym dec : symbolInfo)
    (fc : Bool) :
    (∀ prevID, t.SymLoc.lookup (getSymbolLoc sym.loc) = some prevID →
      prevID ≠ getStringEncode dec.usr →
      t.InsertSymbolUse sym (some dec) fc = t) ∧
    (∀ u, t.SymLoc.lookup (getSymbolLoc sym.loc) =
        some (getStringEncode dec.usr) →
      (t.getSymbolData (getStringEncode dec.usr) sym.name).Uses.getLast? =
        some u →
      u.Loc = getSymbolLoc sym.loc →
      t.InsertSymbolUse sym (some dec) fc =
        { t with
          SymData :=
            t.SymData.insert (getStringEncode dec.usr)
              (mergedUseData
                (t.getSymbolData (getStringEncode dec.usr) sym.name) u fc) } ∧
      (t.InsertSymbolUse sym (some dec) fc).SymLoc = t.SymLoc ∧
      ((t.InsertSymbolUse sym (some dec) fc).SymData.lookup
          (getStringEncode dec.usr)).map (fun d => d.Uses.length) =
        some (t.getSymbolData (getStringEncode dec.usr) sym.name).Uses.length) := by
  constructor
  · intro prevID hprev hne
    unfold symbolsTUDB.InsertSymbolUse
    dsimp only
    rw [hprev]
    dsimp only
    rw [if_pos hne]
  · intro u hprev hlast hloc
    have hrun : t.InsertSymbolUse sym (some dec) fc =
        { t with
          SymData :=
            t.SymData.insert (getStringEncode dec.usr)
              (mergedUseData
                (t.getSymbolData (getStringEncode dec.usr) sym.name) u fc) } := by
      unfold symbolsTUDB.InsertSymbolUse
      dsimp only
      rw [hprev]
      dsimp only
      rw [if_neg (by simp), hlast]
      dsimp only
      rw [if_pos hloc]
      dsimp only [mergedUseData]
    refine ⟨hrun, ?_, ?_⟩
    · rw [hrun]
    · rw [hrun]
      dsimp only
      rw [SMap.lookup_insert_self]
      dsimp only [Option.map, mergedUseData]
      rw [Option.some.injEq]
      have hne2 : (t.getSymbolData (getStringEncode dec.usr) sym.name).Uses ≠ [] := by
        intro hnil
        rw [hnil] at hlast
        exact Option.noConfusion hlast
      unfold replaceLast
      rw [List.length_append, List.length_dropLast]
      cases hu : (t.getSymbolData (getStringEncode dec.usr) sym.name).Uses with
      | nil => exact absurd hu hne2
      | cons a l =>
        simp [List.length_cons]

def exDecF : symbolInfo := ⟨"f", "usr-f", ⟨"a.c", 3, 4⟩⟩

def exDecG : symbolInfo := ⟨"g", "usr-g", ⟨"a.c", 3, 4⟩⟩

def exTUuse : symbolsTUDB :=
  (newSymbolsTUDB "a.c" 5).InsertSymbolUse exDecF (some exDecF) false

/-- C4 witness: at the location of an already-recorded use of `usr-f`, a use
of the foreign `usr-g` is dropped, while a repeated `usr-f` use with
`funcCall = true` merges into the existing entry by OR-ing the flag. -/
theorem navc_C4_witness :
    (exTUuse.InsertSymbolUse exDecG (some exDecG) true = exTUuse) ∧
    (exTUuse.InsertSymbolUse exDecF (some exDecF) true =
      { exTUuse with
        SymData :=
          exTUuse.SymData.insert (getStringEncode exDecF.usr)
            (mergedUseData
              (exTUuse.getSymbolData (getStringEncode exDecF.usr) exDecF.name)
              ⟨⟨"a.c", 3, 4⟩, false⟩ true) } ∧
     (exTUuse.InsertSymbolUse exDecF (some exDecF) true).SymLoc =
       exTUuse.SymLoc ∧
     ((exTUuse.InsertSymbolUse exDecF (some exDecF) true).SymData.lookup
        (getStringEncode exDecF.usr)).map (fun d => d.Uses.length) =
       some (exTUuse.getSymbolData (getStringEncode exDecF.usr)
         exDecF.name).Uses.length) :=
  ⟨(navc_C4_insert_symbol_use exTUuse exDecG exDecG true).1
      (getStringEncode exDecF.usr) (by decide) (by decide),
    (navc_C4_insert_symbol_use exTUuse exDecF exDecF true).2
      ⟨⟨"a.c", 3, 4⟩, false⟩ (by decide) (by decide) (by decide)⟩

/-! ### C8: no validation of line/col on insertion -/

def exDecZero : symbolInfo := ⟨"z", "usr-z", ⟨"a.c", 0, 0⟩⟩

def exTUzero : symbolsTUDB :=
  (newSymbolsTUDB "a.c" 5).insertSymbolDeclWithDef exDecZero none

/-- C8 counterexample: inserting a declaration whose location has
`line = 0, col = 0` stores that location in `SymLoc` (and in `Decls`), so the
claimed rejection of non-positive lines/columns does not happen and `symLoc`
does hold a location with `line ≤ 0` and `col ≤ 0`. -/
theorem navc_C8_counterexample :
    exTUzero.SymLoc.lookup ⟨"a.c", 0, 0⟩ = some (getStringEncode "usr-z") ∧
    (exTUzero.SymData.lookup (getStringEncode "usr-z")).map symbolData.Decls =
      some [⟨"a.c", 0, 0⟩] ∧
    (0 : Int) ≤ 0 := by
  decide

/-- C8 amended: the insertion paths perform no validation of the location.
`insertSymbolDeclWithDef` always binds `getSymbolLoc sym.loc` (line and col
merely wrapped to `int16`, never range-checked) in `SymLoc` and appends it to
the symbol's `Decls`; `InsertSymbolUse` at a fresh location always records it.
In particular locations with `line ≤ 0` or `col ≤ 0` are stored as given. -/
theorem navc_C8_no_location_validation (t : symbolsTUDB) (sym : symbolInfo)
    (defInfo : Option symbolInfo) (dec : symbolInfo) (fc : Bool)
    (hfresh : t.SymLoc.lookup (getSymbolLoc sym.loc) = none) :
    ((t.insertSymbolDeclWithDef sym defInfo).SymLoc.lookup
        (getSymbolLoc sym.loc) = some (getStringEncode sym.usr) ∧
      ((t.insertSymbolDeclWithDef sym defInfo).SymData.lookup
          (getStringEncode sym.usr)).map symbolData.Decls =
        some ((t.getSymbolData (getStringEncode sym.usr) sym.name).Decls ++
          [getSymbolLoc sym.loc])) ∧
    (t.InsertSymbolUse sym (some dec) fc).SymLoc.lookup
      (getSymbolLoc sym.loc) = some (getStringEncode dec.usr) := by
  constructor
  · unfold symbolsTUDB.insertSymbolDeclWithDef
    dsimp only
    cases defInfo with
    | none =>
      dsimp only
      rw [SMap.lookup_insert_self, SMap.lookup_insert_self]
      exact ⟨rfl, rfl⟩
    | some d =>
      dsimp only
      rw [SMap.lookup_insert_self, SMap.lookup_insert_self]
      exact ⟨rfl, rfl⟩
  · unfold symbolsTUDB.InsertSymbolUse
    dsimp only
    rw [hfresh]
    dsimp only
    rw [SMap.lookup_insert_self]

/-- C8 amended witness: a use at the never-seen location `(-7, -1)` of `b.c`
is recorded verbatim. -/
theorem navc_C8_witness :
    (((newSymbolsTUDB "b.c" 5).insertSymbolDeclWithDef
        ⟨"w", "usr-w", ⟨"b.c", -7, -1⟩⟩ none).SymLoc.lookup
        (getSymbolLoc ⟨"b.c", -7, -1⟩) = some (getStringEncode "usr-w") ∧
      (((newSymbolsTUDB "b.c" 5).insertSymbolDeclWithDef
          ⟨"w", "usr-w", ⟨"b.c", -7, -1⟩⟩ none).SymData.lookup
          (getStringEncode "usr-w")).map symbolData.Decls =
        some (((newSymbolsTUDB "b.c" 5).getSymbolData
          (getStringEncode "usr-w") "w").Decls ++
          [getSymbolLoc ⟨"b.c", -7, -1⟩])) ∧
    ((newSymbolsTUDB "b.c" 5).InsertSymbolUse ⟨"w", "usr-w", ⟨"b.c", -7, -1⟩⟩
        (some ⟨"w", "usr-w", ⟨"b.c", -7, -1⟩⟩) false).SymLoc.lookup
      (getSymbolLoc ⟨"b.c", -7, -1⟩) = some (getStringEncode "usr-w") :=
  navc_C8_no_location_validation (newSymbolsTUDB "b.c" 5)
    ⟨"w", "usr-w", ⟨"b.c", -7, -1⟩⟩ none ⟨"w", "usr-w", ⟨"b.c", -7, -1⟩⟩ false
    (by decide)

/-! ### Query resolver (`GetSymbolDecl` / `GetSymbolUses` / `GetSymbolDef`) -/

/-- How a query ends: a result, a structured error, or a process-terminating
panic (`log.Panic` in `getIncluder`, or indexing a nil slice with `[0]`). -/
inductive queryResult (α : Type) where
  | ok (val : α)
  | err (e : String)
  | panicked
deriving DecidableEq

/-- The record and error `GetSymbolsTUDB` yields, without the cache fill.
The fill never changes any observable record, so the queries are modelled on
this pure reading. -/
def symbolsDB.getTUDBPure (s : symbolsDB) (fid : String) :
    Except String symbolsTUDB :=
  match s.TUDBs.lookup fid with
  | none => .error "File not in DB"
  | some c =>
    match c.tudb with
    | some t => .ok t
    | none =>
      match s.disk.lookup fid with
      | none => .error "cannot open db file"
      | some t => .ok t

/-- `getSymbolLocReq`: map internal locations back to request form, silently
dropping any location whose file has no entry in the in-memory index, and
returning Go's `nil` (here `none`) when nothing survives. -/
def symbolsDB.getSymbolLocReq (s : symbolsDB) (syms : List symbolLoc) :
    Option (List SymbolLocReq) :=
  let res := syms.filterMap (fun sym =>
    match s.TUDBs.lookup sym.File with
    | none => none
    | some cache => some (⟨cache.Path, sym.Line, sym.Col⟩ : SymbolLocReq))
  if res = [] then none else some res

/-- `getIncluder` plus the callers' `fileSha1` update: pick any includer of a
header record as query context.  A missing includer record is a
`log.Panic`. -/
def queryContext (s : symbolsDB) (t0 : symbolsTUDB) (fid0 : String) :
    queryResult (symbolsTUDB × String) :=
  if t0.Includers.isEmpty then .ok (t0, fid0)
  else
    match t0.Includers.keys with
    | [] => .panicked
    | f :: _ =>
      match s.getTUDBPure f with
      | .error _ => .panicked
      | .ok t => .ok (t, getStringEncode t.File)

/-- `GetSymbolDecl`. -/
def symbolsDB.GetSymbolDecl (s : symbolsDB) (useReq : SymbolLocReq) :
    queryResult (Option (List SymbolLocReq)) :=
  let loc := getSymbolLoc useReq
  match s.getTUDBPure loc.File with
  | .error e => .err e
  | .ok tudb0 =>
    match queryContext s tudb0 loc.File with
    | .panicked => .panicked
    | .err e => .err e
    | .ok (tudb, _) =>
      match tudb.SymLoc.lookup loc with
      | none => .err "Symbol use not found"
      | some id =>
        .ok (s.getSymbolLocReq ((tudb.SymData.lookup id).getD zeroSymbolData).Decls)

/-- The use-collection pass of `GetSymbolUses` over one record's `Uses`. -/
def addUses (m : SMap symbolLoc Bool) (uses : List symbolUse) :
    SMap symbolLoc Bool :=
  uses.foldl (fun m2 use => m2.insert use.Loc true) m

/-- The includer walk of `GetSymbolUses`: union in the uses of the symbol in
every other includer of a declaring header. -/
def collectUsesIncluders (s : symbolsDB) (fileSha1 : String) (id : String)
    (incls : List String) (m : SMap symbolLoc Bool) : SMap symbolLoc Bool :=
  incls.foldl (fun m2 tuSha1 =>
    if tuSha1 = fileSha1 then m2
    else
      match s.getTUDBPure tuSha1 with
      | .error _ => m2
      | .ok otudb =>
        addUses m2 ((otudb.SymData.lookup id).getD zeroSymbolData).Uses) m

/-- The declaration walk of `GetSymbolUses`. -/
def collectUsesDecls (s : symbolsDB) (fileSha1 : String) (id : String)
    (decls : List symbolLoc) (m : SMap symbolLoc Bool) : SMap symbolLoc Bool :=
  decls.foldl (fun m2 decl =>
    if decl.File = fileSha1 then m2
    else
      match s.getTUDBPure decl.File with
      | .error _ => m2
      | .ok htudb => collectUsesIncluders s fileSha1 id htudb.Includers.keys m2) m

/-- `GetSymbolUses`. -/
def symbolsDB.GetSymbolUses (s : symbolsDB) (useReq : SymbolLocReq) :
    queryResult (Option (List SymbolLocReq)) :=
  let loc := getSymbolLoc useReq
  match s.getTUDBPure loc.File with
  | .error e => .err e
  | .ok tudb0 =>
    match queryContext s tudb0 loc.File with
    | .panicked => .panicked
    | .err e => .err e
    | .ok (tudb, fileSha1) =>
      match tudb.SymLoc.lookup loc with
      | none => .err "Symbol use not found"
      | some id =>
        let data := (tudb.SymData.lookup id).getD zeroSymbolData
        let uses := collectUsesDecls s fileSha1 id data.Decls
          (addUses SMap.empty data.Uses)
        .ok (s.getSymbolLocReq uses.keys)

/-- The `[0]` step of `GetSymbolDef`: panics when the mapped list is `nil`. -/
def firstLocReq (s : symbolsDB) (loc : symbolLoc) : queryResult SymbolLocReq :=
  match s.getSymbolLocReq [loc] with
  | none => .panicked
  | some [] => .panicked
  | some (r :: _) => .ok r

/-- The includer probe of `GetSymbolDef`: first record with `DefAvail` wins. -/
def defSearchIncluders (s : symbolsDB) (fileSha1 : String) (id : String) :
    List String → Option (queryResult SymbolLocReq)
  | [] => none
  | tuSha1 :: rest =>
    if tuSha1 = fileSha1 then defSearchIncluders s fileSha1 id rest
    else
      match s.getTUDBPure tuSha1 with
      | .error _ => defSearchIncluders s fileSha1 id rest
      | .ok otudb =>
        if ((otudb.SymData.lookup id).getD zeroSymbolData).DefAvail then
          some (firstLocReq s
            ((otudb.SymData.lookup id).getD zeroSymbolData).Def)
        else defSearchIncluders s fileSha1 id rest

/-- The declaration walk of `GetSymbolDef`. -/
def defSearchDecls (s : symbolsDB) (fileSha1 : String) (id : String) :
    List symbolLoc → Option (queryResult SymbolLocReq)
  | [] => none
  | decl :: rest =>
    if decl.File = fileSha1 then defSearchDecls s fileSha1 id rest
    else
      match s.getTUDBPure decl.File with
      | .error _ => defSearchDecls s fileSha1 id rest
      | .ok htudb =>
        match defSearchIncluders s fileSha1 id htudb.Includers.keys with
        | some r => some r
        | none => defSearchDecls s fileSha1 id rest

/-- `GetSymbolDef`. -/
def symbolsDB.GetSymbolDef (s : symbolsDB) (useReq : SymbolLocReq) :
    queryResult SymbolLocReq :=
  let loc := getSymbolLoc useReq
  match s.getTUDBPure loc.File with
  | .error e => .err e
  | .ok tudb0 =>
    match queryContext s tudb0 loc.File with
    | .panicked => .panicked
    | .err e => .err e
    | .ok (tudb, fileSha1) =>
      match tudb.SymLoc.lookup loc with
      | none => .err "Symbol use not found"
      | some id =>
        let data := (tudb.SymData.lookup id).getD zeroSymbolData
        if data.DefAvail then firstLocReq s data.Def
        else
          match defSearchDecls s fileSha1 id data.Decls with
          | some r => r
          | none => .err "Definition not found"

/-! ### C10: query results only mention indexed files -/

def exTUc : symbolsTUDB :=
  (((newSymbolsTUDB "c.c" 100).insertSymbolDeclWithDef
      ⟨"f", "usr-f", ⟨"c.c", 1, 1⟩⟩ none).InsertSymbolUse
    ⟨"f", "usr-f", ⟨"c.c", 3, 4⟩⟩ (some ⟨"f", "usr-f", ⟨"c.c", 1, 1⟩⟩) true)

def exStoreC : symbolsDB := (symbolsDB.empty.InsertTUDB exTUc).1

theorem getSymbolLocReq_some {s : symbolsDB} {syms : List symbolLoc}
    {l : List SymbolLocReq} (h : s.getSymbolLocReq syms = some l) :
    l ≠ [] ∧ ∀ r ∈ l, ∃ fid c, s.TUDBs.lookup fid = some c ∧ c.Path = r.File := by
  unfold symbolsDB.getSymbolLocReq at h
  dsimp only at h
  by_cases hres : syms.filterMap (fun sym =>
      match s.TUDBs.lookup sym.File with
      | none => none
      | some cache => some (⟨cache.Path, sym.Line, sym.Col⟩ : SymbolLocReq)) = []
  · rw [if_pos hres] at h
    exact Option.noConfusion h
  · rw [if_neg hres] at h
    rw [Option.some.injEq] at h
    subst h
    refine ⟨hres, ?_⟩
    intro r hr
    rcases List.mem_filterMap.mp hr with ⟨sym, _, hf⟩
    cases hl : s.TUDBs.lookup sym.File with
    | none =>
      rw [hl] at hf
      exact Option.noConfusion hf
    | some cache =>
      rw [hl] at hf
      dsimp only at hf
      rw [Option.some.injEq] at hf
      refine ⟨sym.File, cache, hl, ?_⟩
      rw [← hf]

/-- C10: `getSymbolLocReq` silently drops every location whose `FileID` has no
entry in the in-memory index — a produced list is non-empty and each of its
entries names the path of some indexed slot — and it returns `nil` (not an
empty list) when every candidate is dropped; `GetSymbolUses` results inherit
the property. -/
theorem navc_C10_loc_req_mapping (s : symbolsDB) (syms1 syms2 : List symbolLoc)
    (useReq : SymbolLocReq) (l1 l2 : List SymbolLocReq)
    (h1 : s.getSymbolLocReq syms1 = some l1)
    (h2 : ∀ loc ∈ syms2, s.TUDBs.lookup loc.File = none)
    (h3 : s.GetSymbolUses useReq = .ok (some l2)) :
    (l1 ≠ [] ∧
      ∀ r ∈ l1, ∃ fid c, s.TUDBs.lookup fid = some c ∧ c.Path = r.File) ∧
    s.getSymbolLocReq syms2 = none ∧
    (∀ r ∈ l2, ∃ fid c, s.TUDBs.lookup fid = some c ∧ c.Path = r.File) := by
  refine ⟨getSymbolLocReq_some h1, ?_, ?_⟩
  · unfold symbolsDB.getSymbolLocReq
    dsimp only
    rw [if_pos]
    rw [List.filterMap_eq_nil_iff]
    intro loc hloc
    rw [h2 loc hloc]
  · unfold symbolsDB.GetSymbolUses at h3
    dsimp only at h3
    split at h3
    · exact absurd h3 (by simp)
    · split at h3
      · exact absurd h3 (by simp)
      · exact absurd h3 (by simp)
      · split at h3
        · exact absurd h3 (by simp)
        · rw [queryResult.ok.injEq] at h3
          exact (getSymbolLocReq_some h3).2

/-- C10 witness: in a one-TU store, the mapped use list names only the indexed
`c.c`, and mapping a location of an unknown file yields `nil`. -/
theorem navc_C10_witness :
    (([⟨"c.c", 3, 4⟩] : List SymbolLocReq) ≠ [] ∧
      ∀ r ∈ ([⟨"c.c", 3, 4⟩] : List SymbolLocReq), ∃ fid c,
        exStoreC.TUDBs.lookup fid = some c ∧ c.Path = r.File) ∧
    exStoreC.getSymbolLocReq [⟨"zz.c", 1, 1⟩] = none ∧
    (∀ r ∈ ([⟨"c.c", 3, 4⟩] : List SymbolLocReq), ∃ fid c,
      exStoreC.TUDBs.lookup fid = some c ∧ c.Path = r.File) :=
  navc_C10_loc_req_mapping exStoreC [⟨"c.c", 3, 4⟩] [⟨"zz.c", 1, 1⟩]
    ⟨"c.c", 3, 4⟩ [⟨"c.c", 3, 4⟩] [⟨"c.c", 3, 4⟩]
    (by decide) (by decide) (by decide)

/-! ### C7: files-on-disk enumeration and phantom headers -/

theorem getSetFilesInDB_mem_iff (s : symbolsDB) (p : String) :
    p ∈ s.GetSetFilesInDB ↔
      ∃ fid c, s.TUDBs.lookup fid = some c ∧ c.Mtime ≠ 0 ∧ c.Path = p := by
  unfold symbolsDB.GetSetFilesInDB
  rw [List.mem_filterMap]
  constructor
  · intro ⟨pair, hmem, hf⟩
    by_cases hz : pair.2.Mtime = 0
    · rw [if_pos hz] at hf
      exact Option.noConfusion hf
    · rw [if_neg hz] at hf
      rw [Option.some.injEq] at hf
      refine ⟨pair.1, pair.2, SMap.lookup_eq_some_iff_mem.mpr ?_, hz, hf⟩
      exact hmem
  · intro ⟨fid, c, hl, hz, hp⟩
    refine ⟨(fid, c), SMap.lookup_eq_some_iff_mem.mp hl, ?_⟩
    rw [if_neg hz, Option.some.injEq]
    exact hp

def exTUphan : symbolsTUDB :=
  (newSymbolsTUDB "p.c" 100).InsertHeader "gone.h" none

/-- C7: `GetSetFilesInDB` returns exactly the paths of slots with a non-zero
recorded mtime; and a phantom header (an unresolved include, recorded with
mtime 0) created by an insertion gets an mtime-0 slot, hence is absent from
the enumeration (so long as no real file shares its magic path, which the
prefix guarantees). -/
theorem navc_C7_get_set_files (s : symbolsDB) (p : String) (t : symbolsTUDB)
    (h : String)
    (hmem : h ∈ t.headersTUDB.keys)
    (hmt : (t.Headers.lookup h).getD 0 = 0)
    (habs : s.TUDBs.lookup h = none)
    (habsF : s.TUDBs.lookup (getStringEncode t.File) = none)
    (hgood : ∀ h2 ∈ t.headersTUDB.keys, s.TUDBs.lookup h2 = none ∨
      ∃ c ht, s.TUDBs.lookup h2 = some c ∧ s.getRecord h2 = some ht)
    (hne : h ≠ getStringEncode t.File)
    (hpath : ∀ fid c, s.TUDBs.lookup fid = some c → c.Path ≠ h) :
    (p ∈ s.GetSetFilesInDB ↔
      ∃ fid c, s.TUDBs.lookup fid = some c ∧ c.Mtime ≠ 0 ∧ c.Path = p) ∧
    (s.InsertTUDB t).1.TUDBs.lookup h =
      some (freshHeaderCache (getStringEncode t.File) h 0) ∧
    h ∉ (s.InsertTUDB t).1.GetSetFilesInDB := by
  obtain ⟨_, hfidslot, _, _, hother, hheads⟩ :=
    @insertTUDBBody_spec s (getStringEncode t.File) t hgood
  have hrun : s.InsertTUDB t = insertTUDBBody s (getStringEncode t.File) t :=
    InsertTUDB_absent habsF
  have hphan : (s.InsertTUDB t).1.TUDBs.lookup h =
      some (freshHeaderCache (getStringEncode t.File) h 0) := by
    rw [hrun]
    have := (hheads h hmem hne).1 habs
    rw [hmt] at this
    exact this
  refine ⟨getSetFilesInDB_mem_iff s p, hphan, ?_⟩
  intro hmem2
  rw [getSetFilesInDB_mem_iff] at hmem2
  obtain ⟨fid, c, hl, hz, hp⟩ := hmem2
  rw [hrun] at hl
  by_cases hf1 : fid = getStringEncode t.File
  · subst hf1
    rw [hfidslot, Option.some.injEq] at hl
    rw [← hl] at hp
    exact hne (hp.symm)
  · by_cases hf2 : fid = h
    · subst hf2
      rw [← hrun, hphan, Option.some.injEq] at hl
      rw [← hl] at hz
      exact hz rfl
    · by_cases hf3 : fid ∈ t.headersTUDB.keys
      · rcases hgood fid hf3 with habs2 | ⟨c0, ht0, hc0, hr0⟩
        · have := (hheads fid hf3 hf1).1 habs2
          rw [this, Option.some.injEq] at hl
          rw [← hl] at hp
          exact hf2 hp
        · have := (hheads fid hf3 hf1).2 c0 ht0 hc0 hr0
          rw [this, Option.some.injEq] at hl
          rw [← hl] at hp
          exact hpath fid c0 hc0 hp
      · have := hother fid hf1 hf3
        rw [this] at hl
        exact hpath fid c hl hp

/-- C7 witness: inserting `p.c`, whose include of `gone.h` did not resolve,
creates the phantom record with mtime 0; the enumeration shows exactly
`p.c`. -/
theorem navc_C7_witness :
    ("p.c" ∈ symbolsDB.empty.GetSetFilesInDB ↔
      ∃ fid c, symbolsDB.empty.TUDBs.lookup fid = some c ∧ c.Mtime ≠ 0 ∧
        c.Path = "p.c") ∧
    (symbolsDB.empty.InsertTUDB exTUphan).1.TUDBs.lookup
      "IDoNotReallyExist-gone.h" =
      some (freshHeaderCache (getStringEncode exTUphan.File)
        "IDoNotReallyExist-gone.h" 0) ∧
    "IDoNotReallyExist-gone.h" ∉
      (symbolsDB.empty.InsertTUDB exTUphan).1.GetSetFilesInDB :=
  navc_C7_get_set_files symbolsDB.empty "p.c" exTUphan "IDoNotReallyExist-gone.h"
    (by decide) (by decide) (by decide) (by decide)
    (by
      intro h2 hmem2
      left
      rfl)
    (by decide)
    (by
      intro fid c hc
      exact absurd hc (by exact fun h => Option.noConfusion h))

/-! ### C9: query misses are structured errors, not panics -/

theorem defSearchIncluders_none {s : symbolsDB} {fileSha1 id : String}
    (hnodef : ∀ fid r, s.getTUDBPure fid = .ok r →
      ((r.SymData.lookup id).getD zeroSymbolData).DefAvail = false) :
    ∀ ls, defSearchIncluders s fileSha1 id ls = none := by
  intro ls
  induction ls with
  | nil => rfl
  | cons tu rest ih =>
    unfold defSearchIncluders
    by_cases h1 : tu = fileSha1
    · rw [if_pos h1]
      exact ih
    · rw [if_neg h1]
      cases hg : s.getTUDBPure tu with
      | error e => exact ih
      | ok otudb =>
        dsimp only
        rw [hnodef tu otudb hg]
        simp only [Bool.false_eq_true, if_false]
        exact ih

theorem defSearchDecls_none {s : symbolsDB} {fileSha1 id : String}
    (hnodef : ∀ fid r, s.getTUDBPure fid = .ok r →
      ((r.SymData.lookup id).getD zeroSymbolData).DefAvail = false) :
    ∀ ds, defSearchDecls s fileSha1 id ds = none := by
  intro ds
  induction ds with
  | nil => rfl
  | cons decl rest ih =>
    unfold defSearchDecls
    by_cases h1 : decl.File = fileSha1
    · rw [if_pos h1]
      exact ih
    · rw [if_neg h1]
      cases hg : s.getTUDBPure decl.File with
      | error e => exact ih
      | ok htudb =>
        dsimp only
        rw [defSearchIncluders_none hnodef]
        exact ih

theorem queryContext_ok_record {s : symbolsDB} {t0 ctx : symbolsTUDB}
    {fid0 f1 : String} (h : queryContext s t0 fid0 = .ok (ctx, f1)) :
    ctx = t0 ∨ ∃ g, s.getTUDBPure g = .ok ctx := by
  unfold queryContext at h
  by_cases he : (t0.Includers.isEmpty : Bool) = true
  · rw [if_pos he] at h
    rw [queryResult.ok.injEq] at h
    exact Or.inl ((Prod.mk.injEq _ _ _ _).mp h.symm).1
  · rw [if_neg he] at h
    cases hks : t0.Includers.keys with
    | nil =>
      rw [hks] at h
      exact absurd h (by simp)
    | cons f rest =>
      rw [hks] at h
      dsimp only at h
      cases hg : s.getTUDBPure f with
      | error e =>
        rw [hg] at h
        exact absurd h (by simp)
      | ok t =>
        rw [hg] at h
        dsimp only at h
        rw [queryResult.ok.injEq] at h
        refine Or.inr ⟨f, ?_⟩
        rw [hg, ((Prod.mk.injEq _ _ _ _).mp h.symm).1]

/-- C9: a decls or uses query whose resolved location is not in the context
record's `SymLoc` returns the structured error "Symbol use not found"; a def
query that finds the symbol but no `DefAvail` record anywhere in the store
returns "Definition not found".  In all three cases the result is an error
value, not the panic outcome — the process survives a query miss. -/
theorem navc_C9_query_miss_errors (s : symbolsDB) (reqMiss reqDef : SymbolLocReq)
    (t0m t0d ctxm ctxd : symbolsTUDB) (fidm fidd idd : String)
    (hm0 : s.getTUDBPure (getSymbolLoc reqMiss).File = .ok t0m)
    (hmc : queryContext s t0m (getSymbolLoc reqMiss).File = .ok (ctxm, fidm))
    (hmn : ctxm.SymLoc.lookup (getSymbolLoc reqMiss) = none)
    (hd0 : s.getTUDBPure (getSymbolLoc reqDef).File = .ok t0d)
    (hdc : queryContext s t0d (getSymbolLoc reqDef).File = .ok (ctxd, fidd))
    (hdl : ctxd.SymLoc.lookup (getSymbolLoc reqDef) = some idd)
    (hnodef : ∀ fid r, s.getTUDBPure fid = .ok r →
      ((r.SymData.lookup idd).getD zeroSymbolData).DefAvail = false) :
    s.GetSymbolDecl reqMiss = .err "Symbol use not found" ∧
    s.GetSymbolUses reqMiss = .err "Symbol use not found" ∧
    s.GetSymbolDef reqDef = .err "Definition not found" := by
  have hctxavail : ((ctxd.SymData.lookup idd).getD zeroSymbolData).DefAvail
      = false := by
    rcases queryContext_ok_record hdc with he | ⟨g, hg⟩
    · rw [he]
      exact hnodef _ _ hd0
    · exact hnodef _ _ hg
  refine ⟨?_, ?_, ?_⟩
  · unfold symbolsDB.GetSymbolDecl
    dsimp only
    rw [hm0]
    dsimp only
    rw [hmc]
    dsimp only
    rw [hmn]
  · unfold symbolsDB.GetSymbolUses
    dsimp only
    rw [hm0]
    dsimp only
    rw [hmc]
    dsimp only
    rw [hmn]
  · unfold symbolsDB.GetSymbolDef
    dsimp only
    rw [hd0]
    dsimp only
    rw [hdc]
    dsimp only
    rw [hdl]
    dsimp only
    rw [hctxavail]
    simp only [Bool.false_eq_true, if_false]
    rw [defSearchDecls_none hnodef]

/-- C9 witness: in the one-TU store, a query at the unrecorded location
`(9,9)` yields "Symbol use not found" for decls and uses, and the def query at
the recorded use `(3,4)` of the definition-less `usr-f` yields "Definition not
found"; none of them panics. -/
theorem navc_C9_witness :
    exStoreC.GetSymbolDecl ⟨"c.c", 9, 9⟩ = .err "Symbol use not found" ∧
    exStoreC.GetSymbolUses ⟨"c.c", 9, 9⟩ = .err "Symbol use not found" ∧
    exStoreC.GetSymbolDef ⟨"c.c", 3, 4⟩ = .err "Definition not found" :=
  navc_C9_query_miss_errors exStoreC ⟨"c.c", 9, 9⟩ ⟨"c.c", 3, 4⟩
    (persistTUDB exTUc) (persistTUDB exTUc) (persistTUDB exTUc)
    (persistTUDB exTUc) "c.c" "c.c" (getStringEncode "usr-f")
    rfl (by decide) (by decide) rfl (by decide) (by decide)
    (by
      intro fid r hfr
      by_cases hf : fid = "c.c"
      · subst hf
        have he : exStoreC.getTUDBPure "c.c" = .ok (persistTUDB exTUc) := rfl
        rw [he] at hfr
        rw [Except.ok.injEq] at hfr
        rw [← hfr]
        decide
      · exfalso
        have hnone : exStoreC.TUDBs.lookup fid = none := by
          rw [SMap.lookup_none_iff]
          have hk : exStoreC.TUDBs.keys = ["c.c"] := by decide
          rw [hk]
          simp [hf]
        unfold symbolsDB.getTUDBPure at hfr
        rw [hnone] at hfr
        exact Except.noConfusion hfr)

/-! ### C6: the per-TU blob codec round trip

`SaveSymbolsTUDB`/`loadSymbolsTUDB` (and `symbolsTUDBToBin`/`binToSymbolsTUDB`
in the key/value-store revision) serialise a record with `encoding/gob`: a
self-describing byte stream of the exported fields, unexported parse-time
fields excluded.  The model keeps the same structure over a token stream
(`List Nat`).  Go map iteration order is randomized, so the encoder emits a
map's entries in an arbitrary order: serialisation is modelled as a relation
(one possible blob per permutation of each map's entry list), and the decoder
accepts entries in any order, assigning them into a fresh map exactly as gob
decoding into a Go `map` does. -/

def encNat (n : Nat) : List Nat := [n]

def encBool (b : Bool) : List Nat := [if b then 1 else 0]

def encInt (i : Int) : List Nat :=
  if i < 0 then [1, (-i).toNat] else [0, i.toNat]

def encString (s : String) : List Nat :=
  s.data.length :: s.data.map Char.toNat

def encList {α : Type} (enc : α → List Nat) (l : List α) : List Nat :=
  l.length :: (l.map enc).flatten

def encPair {α β : Type} (encA : α → List Nat) (encB : β → List Nat)
    (p : α × β) : List Nat :=
  encA p.1 ++ encB p.2

def decNat : List Nat → Option (Nat × List Nat)
  | [] => none
  | n :: rest => some (n, rest)

def decBool : List Nat → Option (Bool × List Nat)
  | 0 :: rest => some (false, rest)
  | 1 :: rest => some (true, rest)
  | _ => none

def decInt : List Nat → Option (Int × List Nat)
  | 0 :: n :: rest => some ((n : Int), rest)
  | 1 :: n :: rest => some (-(n : Int), rest)
  | _ => none

def decChars : Nat → List Nat → Option (List Char × List Nat)
  | 0, l => some ([], l)
  | _ + 1, [] => none
  | n + 1, c :: rest =>
    (decChars n rest).map fun p => (Char.ofNat c :: p.1, p.2)

def decString (l : List Nat) : Option (String × List Nat) :=
  (decNat l).bind fun p =>
    (decChars p.1 p.2).map fun q => (String.mk q.1, q.2)

def decListAux {α : Type} (dec : List Nat → Option (α × List Nat)) :
    Nat → List Nat → Option (List α × List Nat)
  | 0, l => some ([], l)
  | n + 1, l =>
    (dec l).bind fun p =>
      (decListAux dec n p.2).map fun q => (p.1 :: q.1, q.2)

def decList {α : Type} (dec : List Nat → Option (α × List Nat))
    (l : List Nat) : Option (List α × List Nat) :=
  (decNat l).bind fun p => decListAux dec p.1 p.2

def decPair {α β : Type} (decA : List Nat → Option (α × List Nat))
    (decB : List Nat → Option (β × List Nat)) (l : List Nat) :
    Option ((α × β) × List Nat) :=
  (decA l).bind fun p => (decB p.2).map fun q => ((p.1, q.1), q.2)

theorem decNat_enc (n : Nat) (r : List Nat) : decNat (encNat n ++ r) = some (n, r) :=
  rfl

theorem decBool_enc (b : Bool) (r : List Nat) :
    decBool (encBool b ++ r) = some (b, r) := by
  cases b <;> rfl

theorem decInt_enc (i : Int) (r : List Nat) :
    decInt (encInt i ++ r) = some (i, r) := by
  unfold encInt decInt
  by_cases h : i < 0
  · rw [if_pos h]
    dsimp only [List.cons_append, List.nil_append]
    rw [Option.some.injEq, Prod.mk.injEq]
    refine ⟨?_, rfl⟩
    rw [Int.toNat_of_nonneg (by omega)]
    omega
  · rw [if_neg h]
    dsimp only [List.cons_append, List.nil_append]
    rw [Option.some.injEq, Prod.mk.injEq]
    exact ⟨Int.toNat_of_nonneg (by omega), rfl⟩

theorem decChars_enc (cs : List Char) (r : List Nat) :
    decChars cs.length (cs.map Char.toNat ++ r) = some (cs, r) := by
  induction cs with
  | nil => rfl
  | cons c cs ih =>
    dsimp only [List.length_cons, List.map_cons, List.cons_append, decChars]
    rw [ih]
    dsimp only [Option.map]
    rw [Char.ofNat_toNat]

theorem decString_enc (s : String) (r : List Nat) :
    decString (encString s ++ r) = some (s, r) := by
  unfold decString encString
  dsimp only [List.cons_append, decNat, Option.bind]
  rw [decChars_enc]
  rfl

theorem decListAux_enc {α : Type} (dec : List Nat → Option (α × List Nat))
    (enc : α → List Nat) (h : ∀ a r, dec (enc a ++ r) = some (a, r)) :
    ∀ (xs : List α) (r : List Nat),
      decListAux dec xs.length ((xs.map enc).flatten ++ r) = some (xs, r) := by
  intro xs
  induction xs with
  | nil => intro r; rfl
  | cons x xs ih =>
    intro r
    dsimp only [List.length_cons, List.map_cons, List.flatten_cons, decListAux]
    rw [List.append_assoc, h x, Option.bind]
    rw [ih r]
    rfl

theorem decList_enc {α : Type} (dec : List Nat → Option (α × List Nat))
    (enc : α → List Nat) (h : ∀ a r, dec (enc a ++ r) = some (a, r))
    (xs : List α) (r : List Nat) :
    decList dec (encList enc xs ++ r) = some (xs, r) := by
  unfold decList encList
  dsimp only [List.cons_append, decNat, Option.bind]
  exact decListAux_enc dec enc h xs r

theorem decPair_enc {α β : Type} (decA : List Nat → Option (α × List Nat))
    (encA : α → List Nat) (decB : List Nat → Option (β × List Nat))
    (encB : β → List Nat) (hA : ∀ a r, decA (encA a ++ r) = some (a, r))
    (hB : ∀ b r, decB (encB b ++ r) = some (b, r)) (p : α × β) (r : List Nat) :
    decPair decA decB (encPair encA encB p ++ r) = some (p, r) := by
  unfold decPair encPair
  rw [List.append_assoc, hA, Option.bind]
  rw [hB]
  rfl

/-- One possible gob emission of a map: its entry list in whatever order the
Go map iteration produced it. -/
def encSMapEntries {K V : Type} (encK : K → List Nat) (encV : V → List Nat)
    (l : List (K × V)) : List Nat :=
  encList (encPair encK encV) l

/-- Rebuild a Go map from a decoded entry stream: entries are assigned in
stream order, a later duplicate key overwriting an earlier one. -/
def rebuildSMap {K V : Type} [KOrd K] [DecidableEq K] (l : List (K × V)) :
    SMap K V :=
  l.foldl (fun acc kv => acc.insert kv.1 kv.2) SMap.empty

/-- Decode a map: read the entry list, in whatever order it was emitted, and
assign the entries into a fresh map (gob imposes no order on map entries). -/
def decSMap {K V : Type} [KOrd K] [DecidableEq K]
    (decK : List Nat → Option (K × List Nat))
    (decV : List Nat → Option (V × List Nat)) (l : List Nat) :
    Option (SMap K V × List Nat) :=
  (decList (decPair decK decV) l).map fun p => (rebuildSMap p.1, p.2)

theorem foldl_insert_lookup_of_not_mem {K V : Type} [KOrd K] [DecidableEq K] :
    ∀ (l : List (K × V)) (acc : SMap K V) (k : K), k ∉ l.map Prod.fst →
      (l.foldl (fun acc kv => acc.insert kv.1 kv.2) acc).lookup k =
        acc.lookup k := by
  intro l
  induction l with
  | nil =>
    intro acc k _
    rfl
  | cons kv rest ih =>
    intro acc k hk
    rw [List.map_cons] at hk
    have hk1 : k ≠ kv.1 := fun he => hk (he ▸ List.mem_cons_self _ _)
    have hk2 : k ∉ rest.map Prod.fst := fun hm => hk (List.mem_cons_of_mem _ hm)
    rw [List.foldl_cons]
    rw [ih (acc.insert kv.1 kv.2) k hk2, SMap.lookup_insert_ne _ _ hk1]

theorem foldl_insert_lookup_of_mem {K V : Type} [KOrd K] [DecidableEq K] :
    ∀ (l : List (K × V)) (acc : SMap K V) (k : K) (v : V),
      (l.map Prod.fst).Nodup → (k, v) ∈ l →
      (l.foldl (fun acc kv => acc.insert kv.1 kv.2) acc).lookup k = some v := by
  intro l
  induction l with
  | nil =>
    intro acc k v _ hm
    exact absurd hm (List.not_mem_nil _)
  | cons kv rest ih =>
    intro acc k v hnd hm
    rw [List.map_cons, List.nodup_cons] at hnd
    rw [List.foldl_cons]
    rcases List.mem_cons.mp hm with he | hm2
    · subst he
      rw [foldl_insert_lookup_of_not_mem rest _ k hnd.1]
      exact SMap.lookup_insert_self _ _ _
    · exact ih _ k v hnd.2 hm2

/-- Assigning any permutation of a map's entries into a fresh map rebuilds
the map: entry order does not matter because the keys are distinct. -/
theorem rebuildSMap_perm {K V : Type} [KOrd K] [DecidableEq K]
    (l : List (K × V)) (m : SMap K V) (hperm : List.Perm l m.entries) :
    rebuildSMap l = m := by
  have hnd : (l.map Prod.fst).Nodup :=
    ((hperm.map Prod.fst).nodup_iff).mpr (SMap.keys_nodup m)
  apply SMap.ext_lookup
  intro k
  by_cases hk : k ∈ l.map Prod.fst
  · obtain ⟨⟨k1, v1⟩, hkv, hfst⟩ := List.mem_map.mp hk
    dsimp only at hfst
    subst hfst
    unfold rebuildSMap
    rw [foldl_insert_lookup_of_mem l SMap.empty k1 v1 hnd hkv]
    exact (SMap.lookup_eq_some_iff_mem.mpr (hperm.mem_iff.mp hkv)).symm
  · unfold rebuildSMap
    rw [foldl_insert_lookup_of_not_mem l SMap.empty k hk, SMap.lookup_empty]
    have hk2 : k ∉ m.keys := fun hmem =>
      hk (((hperm.map Prod.fst).mem_iff).mpr hmem)
    exact ((SMap.lookup_none_iff m k).mpr hk2).symm

theorem decSMap_enc {K V : Type} [KOrd K] [DecidableEq K]
    (decK : List Nat → Option (K × List Nat)) (encK : K → List Nat)
    (decV : List Nat → Option (V × List Nat)) (encV : V → List Nat)
    (hK : ∀ a r, decK (encK a ++ r) = some (a, r))
    (hB : ∀ b r, decV (encV b ++ r) = some (b, r)) (m : SMap K V)
    (l : List (K × V)) (hperm : List.Perm l m.entries) (r : List Nat) :
    decSMap decK decV (encSMapEntries encK encV l ++ r) = some (m, r) := by
  unfold decSMap encSMapEntries
  rw [decList_enc _ _ (decPair_enc decK encK decV encV hK hB)]
  dsimp only [Option.map]
  rw [rebuildSMap_perm l m hperm]

def encSymbolLoc (loc : symbolLoc) : List Nat :=
  encString loc.File ++ encInt loc.Line ++ encInt loc.Col

def decSymbolLoc (l : List Nat) : Option (symbolLoc × List Nat) :=
  (decString l).bind fun p =>
    (decInt p.2).bind fun q =>
      (decInt q.2).map fun w => (⟨p.1, q.1, w.1⟩, w.2)

theorem decSymbolLoc_enc (loc : symbolLoc) (r : List Nat) :
    decSymbolLoc (encSymbolLoc loc ++ r) = some (loc, r) := by
  unfold decSymbolLoc encSymbolLoc
  rw [List.append_assoc, List.append_assoc, decString_enc, Option.bind]
  rw [decInt_enc, Option.bind]
  rw [decInt_enc]
  rfl

def encSymbolUse (u : symbolUse) : List Nat :=
  encSymbolLoc u.Loc ++ encBool u.FuncCall

def decSymbolUse (l : List Nat) : Option (symbolUse × List Nat) :=
  (decSymbolLoc l).bind fun p =>
    (decBool p.2).map fun q => (⟨p.1, q.1⟩, q.2)

theorem decSymbolUse_enc (u : symbolUse) (r : List Nat) :
    decSymbolUse (encSymbolUse u ++ r) = some (u, r) := by
  unfold decSymbolUse encSymbolUse
  rw [List.append_assoc, decSymbolLoc_enc, Option.bind]
  rw [decBool_enc]
  rfl

def encSymbolData (d : symbolData) : List Nat :=
  encString d.Name ++ encList encSymbolUse d.Uses ++
    encList encSymbolLoc d.Decls ++ encBool d.DefAvail ++ encSymbolLoc d.Def

def decSymbolData (l : List Nat) : Option (symbolData × List Nat) :=
  (decString l).bind fun p1 =>
    (decList decSymbolUse p1.2).bind fun p2 =>
      (decList decSymbolLoc p2.2).bind fun p3 =>
        (decBool p3.2).bind fun p4 =>
          (decSymbolLoc p4.2).map fun p5 =>
            (⟨p1.1, p2.1, p3.1, p4.1, p5.1⟩, p5.2)

theorem decSymbolData_enc (d : symbolData) (r : List Nat) :
    decSymbolData (encSymbolData d ++ r) = some (d, r) := by
  unfold decSymbolData encSymbolData
  rw [List.append_assoc, List.append_assoc, List.append_assoc,
    List.append_assoc, decString_enc, Option.bind]
  rw [decList_enc _ _ decSymbolUse_enc, Option.bind]
  rw [decList_enc _ _ decSymbolLoc_enc, Option.bind]
  rw [decBool_enc, Option.bind]
  rw [decSymbolLoc_enc]
  rfl

/-- `symbolsTUDBToBin` / `SaveSymbolsTUDB`, as a relation: `bin` is one of
the blobs the serialiser can produce for `t`.  Only the exported fields are
written (`gob` skips `headersTUDB` and `tmpFile`), and each map's entries go
out in whatever order Go's randomized map iteration yields, so any
permutation of each entry list gives a possible blob. -/
def symbolsTUDBBins (t : symbolsTUDB) (bin : List Nat) : Prop :=
  ∃ l1 l2 l3 l4,
    List.Perm l1 t.SymLoc.entries ∧ List.Perm l2 t.SymData.entries ∧
    List.Perm l3 t.Headers.entries ∧ List.Perm l4 t.Includers.entries ∧
    bin = encString t.File ++ encNat t.Mtime ++
      encSMapEntries encSymbolLoc encString l1 ++
      encSMapEntries encString encSymbolData l2 ++
      encSMapEntries encString encNat l3 ++
      encSMapEntries encString encBool l4

/-- `binToSymbolsTUDB` / `loadSymbolsTUDB`: decode a stored blob, accepting
map entries in any order; the unexported `headersTUDB` comes back empty. -/
def binToSymbolsTUDB (bin : List Nat) : Option symbolsTUDB :=
  ((decString bin).bind fun p1 =>
    (decNat p1.2).bind fun p2 =>
      (decSMap decSymbolLoc decString p2.2).bind fun p3 =>
        (decSMap decString decSymbolData p3.2).bind fun p4 =>
          (decSMap decString decNat p4.2).bind fun p5 =>
            (decSMap decString decBool p5.2).map fun p6 =>
              (({ File := p1.1
                  Mtime := p2.1
                  SymLoc := p3.1
                  SymData := p4.1
                  Headers := p5.1
                  Includers := p6.1
                  headersTUDB := SMap.empty } : symbolsTUDB), p6.2)).bind
    fun p => if p.2 = [] then some p.1 else none

theorem binToSymbolsTUDB_encs (t : symbolsTUDB) (bin : List Nat)
    (henc : symbolsTUDBBins t bin) :
    binToSymbolsTUDB bin = some (persistTUDB t) := by
  obtain ⟨l1, l2, l3, l4, hp1, hp2, hp3, hp4, hbin⟩ := henc
  subst hbin
  unfold binToSymbolsTUDB
  rw [List.append_assoc, List.append_assoc, List.append_assoc,
    List.append_assoc, decString_enc, Option.bind]
  rw [show encNat t.Mtime ++ (encSMapEntries encSymbolLoc encString l1 ++
    (encSMapEntries encString encSymbolData l2 ++ (encSMapEntries encString
      encNat l3 ++ encSMapEntries encString encBool l4))) =
    encNat t.Mtime ++ (encSMapEntries encSymbolLoc encString l1 ++
    (encSMapEntries encString encSymbolData l2 ++ (encSMapEntries encString
      encNat l3 ++ (encSMapEntries encString encBool l4 ++ [])))) from by
    rw [List.append_nil]]
  rw [show decNat (encNat t.Mtime ++ (encSMapEntries encSymbolLoc encString
      l1 ++ (encSMapEntries encString encSymbolData l2 ++ (encSMapEntries
      encString encNat l3 ++ (encSMapEntries encString encBool l4 ++ []))))) =
    some (t.Mtime, encSMapEntries encSymbolLoc encString l1 ++
    (encSMapEntries encString encSymbolData l2 ++ (encSMapEntries encString
      encNat l3 ++ (encSMapEntries encString encBool l4 ++ [])))) from
    decNat_enc _ _]
  rw [Option.bind]
  rw [decSMap_enc _ _ _ _ decSymbolLoc_enc decString_enc t.SymLoc l1 hp1,
    Option.bind]
  rw [decSMap_enc _ _ _ _ decString_enc decSymbolData_enc t.SymData l2 hp2,
    Option.bind]
  rw [decSMap_enc _ _ _ _ decString_enc decNat_enc t.Headers l3 hp3,
    Option.bind]
  rw [decSMap_enc _ _ _ _ decString_enc decBool_enc t.Includers l4 hp4]
  rfl

def exTU6 : symbolsTUDB :=
  ((newSymbolsTUDB "c6.c" 100).InsertHeader "a.h"
    (some ("a.h", 90))).InsertHeader "b.h" (some ("b.h", 91))

/-- A blob for `exTU6` with its two `Headers` entries emitted in reversed
iteration order. -/
def exBin6rev : List Nat :=
  encString exTU6.File ++ encNat exTU6.Mtime ++
    encSMapEntries encSymbolLoc encString exTU6.SymLoc.entries ++
    encSMapEntries encString encSymbolData exTU6.SymData.entries ++
    encSMapEntries encString encNat exTU6.Headers.entries.reverse ++
    encSMapEntries encString encBool exTU6.Includers.entries

/-- A blob for `exTU6` with the `Headers` entries in the other order. -/
def exBin6fwd : List Nat :=
  encString exTU6.File ++ encNat exTU6.Mtime ++
    encSMapEntries encSymbolLoc encString exTU6.SymLoc.entries ++
    encSMapEntries encString encSymbolData exTU6.SymData.entries ++
    encSMapEntries encString encNat exTU6.Headers.entries ++
    encSMapEntries encString encBool exTU6.Includers.entries

/-- C6 counterexample: the byte-level round trip fails.  `gob` emits map
entries in Go's randomized iteration order, so a record whose `Headers` map
has two entries serialises to (at least) two distinct blobs: `exBin6rev` is a
blob the daemon can write for `exTU6`, it deserialises fine, but re-serialising
the decoded record can emit `exBin6fwd`, a different byte stream — reproduction
of the original blob is not guaranteed by the code. -/
theorem navc_C6_counterexample :
    ∃ t2, symbolsTUDBBins exTU6 exBin6rev ∧
      binToSymbolsTUDB exBin6rev = some t2 ∧
      symbolsTUDBBins t2 exBin6fwd ∧ exBin6fwd ≠ exBin6rev := by
  have henc : symbolsTUDBBins exTU6 exBin6rev :=
    ⟨exTU6.SymLoc.entries, exTU6.SymData.entries,
      exTU6.Headers.entries.reverse, exTU6.Includers.entries,
      List.Perm.refl _, List.Perm.refl _, List.reverse_perm _,
      List.Perm.refl _, rfl⟩
  refine ⟨persistTUDB exTU6, henc, binToSymbolsTUDB_encs exTU6 exBin6rev henc,
    ?_, ?_⟩
  · exact ⟨exTU6.SymLoc.entries, exTU6.SymData.entries, exTU6.Headers.entries,
      exTU6.Includers.entries, List.Perm.refl _, List.Perm.refl _,
      List.Perm.refl _, List.Perm.refl _, rfl⟩
  · decide

/-- C6 (corrected): the value-level round trip.  Every blob the serialiser
can produce for a record — under any map iteration order — deserialises to
that record with the unexported `headersTUDB` cleared, and that decoded
record re-serialises to the same blob under some iteration order (though, as
`navc_C6_counterexample` shows, not under every one, so byte-identical
reproduction is not guaranteed). -/
theorem navc_C6_value_roundtrip (t : symbolsTUDB) (bin : List Nat)
    (henc : symbolsTUDBBins t bin) :
    binToSymbolsTUDB bin = some (persistTUDB t) ∧
      symbolsTUDBBins (persistTUDB t) bin := by
  refine ⟨binToSymbolsTUDB_encs t bin henc, ?_⟩
  obtain ⟨l1, l2, l3, l4, hp1, hp2, hp3, hp4, hbin⟩ := henc
  exact ⟨l1, l2, l3, l4, hp1, hp2, hp3, hp4, hbin⟩

def exBin6a : List Nat :=
  encString exTUa.File ++ encNat exTUa.Mtime ++
    encSMapEntries encSymbolLoc encString exTUa.SymLoc.entries ++
    encSMapEntries encString encSymbolData exTUa.SymData.entries ++
    encSMapEntries encString encNat exTUa.Headers.entries ++
    encSMapEntries encString encBool exTUa.Includers.entries

/-- C6 witness: a concrete blob of the record `exTUa` decodes to the persisted
record, which re-serialises to the same blob. -/
theorem navc_C6_witness :
    binToSymbolsTUDB exBin6a = some (persistTUDB exTUa) ∧
      symbolsTUDBBins (persistTUDB exTUa) exBin6a :=
  navc_C6_value_roundtrip exTUa exBin6a
    ⟨exTUa.SymLoc.entries, exTUa.SymData.entries, exTUa.Headers.entries,
      exTUa.Includers.entries, List.Perm.refl _, List.Perm.refl _,
      List.Perm.refl _, List.Perm.refl _, rfl⟩

/-! ### C5: idempotence of insertion -/

theorem SMap.insert_erase_same {K V : Type} [KOrd K] [DecidableEq K]
    (m : SMap K V) (k : K) (v : V) : (m.erase k).insert k v = m.insert k v := by
  apply SMap.ext_lookup
  intro q
  by_cases h : q = k
  · subst h
    rw [SMap.lookup_insert_self, SMap.lookup_insert_self]
  · rw [SMap.lookup_insert_ne _ _ h, SMap.lookup_insert_ne _ _ h,
      SMap.lookup_erase_ne _ h]

theorem SMap.insert_erase_insert {K V : Type} [KOrd K] [DecidableEq K]
    (m : SMap K V) (k : K) (v : V) :
    ((m.insert k v).erase k).insert k v = m.insert k v := by
  rw [SMap.erase_insert_self, SMap.insert_erase_same]

theorem SMap.erase_empty {K V : Type} [KOrd K] [DecidableEq K] (k : K) :
    (SMap.empty : SMap K V).erase k = SMap.empty :=
  SMap.eq_of_entries_eq rfl

theorem symbolsDB.eq_of_parts {s1 s2 : symbolsDB} (h1 : s1.TUDBs = s2.TUDBs)
    (h2 : s1.disk = s2.disk) : s1 = s2 := by
  cases s1
  cases s2
  simp only at h1 h2
  subst h1
  subst h2
  rfl

/-- C5: inserting the same record twice yields the state of inserting it once.
Hypotheses: the record is parser-shaped (its `Headers` digests are exactly its
`headersTUDB` paths, and it does not include itself), its file is new to the
store, the store has no orphan db file for an unknown header, and each header
already present has a readable record whose includer set does not reduce to
just this file.  Both insertions succeed and the states coincide exactly. -/
theorem navc_C5_insert_idempotent (s : symbolsDB) (t : symbolsTUDB)
    (hcoh : t.Headers.keys = t.headersTUDB.keys)
    (hself : getStringEncode t.File ∉ t.headersTUDB.keys)
    (habs : s.TUDBs.lookup (getStringEncode t.File) = none)
    (hdisk : ∀ q ∈ t.headersTUDB.keys, s.TUDBs.lookup q = none →
      s.disk.lookup q = none)
    (hgood : ∀ h ∈ t.headersTUDB.keys, s.TUDBs.lookup h = none ∨
      ∃ c ht, s.TUDBs.lookup h = some c ∧ s.getRecord h = some ht ∧
        (ht.Includers.erase (getStringEncode t.File)).isEmpty = false) :
    (s.InsertTUDB t).2 = .ok ∧
    (s.InsertTUDB t).1.InsertTUDB t = ((s.InsertTUDB t).1, .ok) := by
  set fid := getStringEncode t.File with hfid
  set ks := t.headersTUDB.keys with hks
  have hkne : ∀ h ∈ ks, h ≠ fid := fun h hm he => hself (he ▸ hm)
  have hgood1 : ∀ h ∈ ks, s.TUDBs.lookup h = none ∨
      ∃ c ht, s.TUDBs.lookup h = some c ∧ s.getRecord h = some ht := by
    intro h hm
    rcases hgood h hm with ha | ⟨c, ht, h1, h2, _⟩
    · exact Or.inl ha
    · exact Or.inr ⟨c, ht, h1, h2⟩
  obtain ⟨b1ok, b1fid, b1disk, b1diskq, b1other, b1heads⟩ :=
    @insertTUDBBody_spec s fid t hgood1
  have hrun1 : s.InsertTUDB t = insertTUDBBody s fid t := InsertTUDB_absent habs
  set s1 := (s.InsertTUDB t).1 with hs1
  have hs1body : s1 = (insertTUDBBody s fid t).1 := by rw [hs1, hrun1]
  have f1 : s1.TUDBs.lookup fid = some (freshTUCache t) := by
    rw [hs1body]; exact b1fid
  have f2 : s1.disk.lookup fid = some (persistTUDB t) := by
    rw [hs1body]; exact b1disk
  have f3 : ∀ q, q ≠ fid → s1.disk.lookup q = s.disk.lookup q := by
    intro q hq
    rw [hs1body]; exact b1diskq q hq
  have f4 : ∀ q, q ≠ fid → q ∉ ks → s1.TUDBs.lookup q = s.TUDBs.lookup q := by
    intro q hq1 hq2
    rw [hs1body]; exact b1other q hq1 hq2
  have f5 : ∀ h ∈ ks,
      (s.TUDBs.lookup h = none → s1.TUDBs.lookup h =
        some (freshHeaderCache fid h ((t.Headers.lookup h).getD 0))) ∧
      (∀ c ht, s.TUDBs.lookup h = some c → s.getRecord h = some ht →
        s1.TUDBs.lookup h = some (joinedHeaderCache fid c ht)) := by
    intro h hm
    constructor
    · intro ha
      rw [hs1body]; exact (b1heads h hm (hkne h hm)).1 ha
    · intro c ht h1 h2
      rw [hs1body]; exact (b1heads h hm (hkne h hm)).2 c ht h1 h2
  refine ⟨by rw [hrun1]; exact b1ok, ?_⟩
  -- the second insertion: the file is present with an equal mtime
  have hmle : ¬ (freshTUCache t).Mtime > t.Mtime := by
    simp [freshTUCache]
  have hrun2 : s1.InsertTUDB t =
      insertTUDBBody (s1.RemoveFileReferences t.File).1 fid t :=
    InsertTUDB_fresh f1 hmle
  -- the removal pass of the second insertion
  have hrF : s1.getRecord fid = some (persistTUDB t) := by
    rw [getRecord_eq_some f1]
    exact f2
  have hpH : (persistTUDB t).Headers.keys = ks := hcoh
  have hfid2 : fid ∉ (persistTUDB t).Headers.keys := by
    rw [hpH]; exact hself
  have hgood_rm : ∀ h ∈ (persistTUDB t).Headers.keys,
      ∃ c ht, s1.TUDBs.lookup h = some c ∧ s1.getRecord h = some ht := by
    rw [hpH]
    intro h hm
    rcases hgood h hm with ha | ⟨c, ht, h1, h2, _⟩
    · refine ⟨freshHeaderCache fid h ((t.Headers.lookup h).getD 0),
        { newSymbolsTUDB h ((t.Headers.lookup h).getD 0) with
          Includers := (SMap.empty : SMap String Bool).insert fid true },
        (f5 h hm).1 ha, ?_⟩
      rw [getRecord_eq_some ((f5 h hm).1 ha)]
      rfl
    · refine ⟨joinedHeaderCache fid c ht,
        { ht with Includers := ht.Includers.insert fid true },
        (f5 h hm).2 c ht h1 h2, ?_⟩
      rw [getRecord_eq_some ((f5 h hm).2 c ht h1 h2)]
      rfl
  obtain ⟨r1, r2, r3, r4, r5⟩ := RemoveFileReferences_spec f1 hrF hfid2 hgood_rm
  rw [hpH] at r4 r5
  set s2 := (s1.RemoveFileReferences t.File).1 with hs2
  -- what each header looks like after the removal pass
  have hremheads : ∀ h ∈ ks,
      (s.TUDBs.lookup h = none →
        s2.TUDBs.lookup h = none ∧ s2.disk.lookup h = none) ∧
      (∀ c ht, s.TUDBs.lookup h = some c → s.getRecord h = some ht →
        (ht.Includers.erase fid).isEmpty = false →
        s2.TUDBs.lookup h =
          some { c with
            tudb := some { ht with Includers := ht.Includers.erase fid }
            dirty := true } ∧
        s2.disk.lookup h = s1.disk.lookup h) := by
    intro h hm
    constructor
    · intro ha
      have hslot := (f5 h hm).1 ha
      have hrec : s1.getRecord h = some
          ((freshHeaderCache fid h ((t.Headers.lookup h).getD 0)).tudb.getD
            (newSymbolsTUDB h 0)) := by
        rw [getRecord_eq_some hslot]
        rfl
      have := r5 h hm _ _ hslot hrec
      have hempt : ((((freshHeaderCache fid h
          ((t.Headers.lookup h).getD 0)).tudb.getD
            (newSymbolsTUDB h 0)).Includers.erase fid).isEmpty : Bool)
          = true := by
        show ((((SMap.empty : SMap String Bool).insert fid true).erase
          fid).isEmpty : Bool) = true
        rw [SMap.erase_insert_self, SMap.erase_empty]
        rfl
      rw [if_pos hempt] at this
      exact this
    · intro c ht h1 h2 hne0
      have hslot := (f5 h hm).2 c ht h1 h2
      have hrec : s1.getRecord h =
          some { ht with Includers := ht.Includers.insert fid true } := by
        rw [getRecord_eq_some hslot]
        rfl
      have := r5 h hm _ _ hslot hrec
      have herase : ({ ht with
          Includers := ht.Includers.insert fid true } : symbolsTUDB).Includers.erase
            fid = ht.Includers.erase fid := by
        show (ht.Includers.insert fid true).erase fid = ht.Includers.erase fid
        exact SMap.erase_insert_self _ _ _
      rw [herase] at this
      rw [if_neg (by rw [hne0]; exact Bool.false_ne_true)] at this
      obtain ⟨g1, g2⟩ := this
      refine ⟨?_, g2⟩
      rw [g1]
      rfl
  -- the body pass of the second insertion
  have hgood_body : ∀ h ∈ ks, s2.TUDBs.lookup h = none ∨
      ∃ c ht, s2.TUDBs.lookup h = some c ∧ s2.getRecord h = some ht := by
    intro h hm
    rcases hgood h hm with ha | ⟨c, ht, h1, h2, hne0⟩
    · exact Or.inl ((hremheads h hm).1 ha).1
    · obtain ⟨g1, _⟩ := (hremheads h hm).2 c ht h1 h2 hne0
      refine Or.inr ⟨_, { ht with Includers := ht.Includers.erase fid },
        g1, ?_⟩
      rw [getRecord_eq_some g1]
  obtain ⟨b2ok, b2fid, b2disk, b2diskq, b2other, b2heads⟩ :=
    @insertTUDBBody_spec s2 fid t hgood_body
  rw [hrun2]
  rcases hbody : insertTUDBBody s2 fid t with ⟨s3, out3⟩
  rw [hbody] at b2ok b2fid b2disk b2diskq b2other b2heads
  dsimp only at b2ok b2fid b2disk b2diskq b2other b2heads
  subst b2ok
  rw [Prod.mk.injEq]
  refine ⟨?_, rfl⟩
  -- the final state equals the state after the first insertion
  apply symbolsDB.eq_of_parts
  · apply SMap.ext_lookup
    intro q
    by_cases hq1 : q = fid
    · subst hq1
      rw [b2fid, f1]
    · by_cases hq2 : q ∈ ks
      · rcases hgood q hq2 with ha | ⟨c, ht, h1, h2, hne0⟩
        · obtain ⟨g1, _⟩ := (hremheads q hq2).1 ha
          rw [(b2heads q hq2 hq1).1 g1, (f5 q hq2).1 ha]
        · obtain ⟨g1, _⟩ := (hremheads q hq2).2 c ht h1 h2 hne0
          have hrec2 : s2.getRecord q = some
              { ht with Includers := ht.Includers.erase fid } := by
            rw [getRecord_eq_some g1]
          rw [(b2heads q hq2 hq1).2 _ _ g1 hrec2, (f5 q hq2).2 c ht h1 h2]
          unfold joinedHeaderCache
          rw [Option.some.injEq]
          show ({ c with
            tudb := some { ht with
              Includers := (ht.Includers.erase fid).insert fid true }
            dirty := true } : tuSymbolsDBCache) = _
          rw [SMap.insert_erase_same]
      · rw [b2other q hq1 hq2, (r4 q hq2 hq1).1, f4 q hq1 hq2]
  · apply SMap.ext_lookup
    intro q
    by_cases hq1 : q = fid
    · subst hq1
      rw [b2disk, f2]
    · rw [b2diskq q hq1]
      by_cases hq2 : q ∈ ks
      · rcases hgood q hq2 with ha | ⟨c, ht, h1, h2, hne0⟩
        · obtain ⟨_, g2⟩ := (hremheads q hq2).1 ha
          rw [g2, f3 q hq1, hdisk q hq2 ha]
        · obtain ⟨_, g2⟩ := (hremheads q hq2).2 c ht h1 h2 hne0
          rw [g2]
      · rw [(r4 q hq2 hq1).2]

/-- C5 witness: inserting `a.c` (with header `a.h`) into the empty store twice
produces exactly the state of inserting it once. -/
theorem navc_C5_witness :
    (symbolsDB.empty.InsertTUDB exTUa).2 = .ok ∧
    (symbolsDB.empty.InsertTUDB exTUa).1.InsertTUDB exTUa =
      ((symbolsDB.empty.InsertTUDB exTUa).1, .ok) :=
  navc_C5_insert_idempotent symbolsDB.empty exTUa (by decide) (by decide)
    (by decide) (by decide)
    (by
      intro h hm
      left
      have hk : exTUa.headersTUDB.keys = ["a.h"] := by decide
      rw [hk] at hm
      have hh : h = "a.h" := by simpa using hm
      subst hh
      rfl)

/-! ### C3: includer symmetry under insert/remove sequences -/

/-- One store mutation of the reconcile loop. -/
inductive dbOp where
  | insert (t : symbolsTUDB)
  | remove (file : String)

/-- Apply one operation; a panicking or failing call leaves the state it
reached (the panic aborts before mutating, the errors keep partial state). -/
def applyOp (s : symbolsDB) : dbOp → symbolsDB
  | .insert t => (s.InsertTUDB t).1
  | .remove file => (s.RemoveFileReferences file).1

/-- Run a sequence of operations from the empty store. -/
def runOps (ops : List dbOp) : symbolsDB :=
  ops.foldl applyOp symbolsDB.empty

/-- P1/I1 + I2, as the claim states them: every stored compiled TU (a record
with a db file on disk — in insert/remove runs exactly the `InsertTUDB`-ed
records, headers living in memory until a flush) lists only headers whose
records name it back as an includer; and every record with a non-empty
includer set is named back in each includer's header map. -/
def includerSymmetry (s : symbolsDB) : Prop :=
  (∀ fid r, s.disk.lookup fid = some r → ∀ h ∈ r.Headers.keys,
    ∃ hr, s.getRecord h = some hr ∧ (hr.Includers.lookup fid).isSome = true) ∧
  (∀ fid hr, s.getRecord fid = some hr → hr.Includers.isEmpty = false →
    ∀ f, (hr.Includers.lookup f).isSome = true →
      ∃ fr, s.getRecord f = some fr ∧ (fr.Headers.lookup fid).isSome = true)

def cxTUheader : symbolsTUDB := newSymbolsTUDB "a.h" 200

/-- C3 counterexample: from the empty store, insert `a.c` (which lists header
`a.h`, mtime 90), then insert a record whose file is the header path `a.h`
itself (mtime 200, no headers).  `InsertTUDB` accepts it — the removal of the
old header record drops its includer set and nothing restores it — so `a.c`
still lists `a.h` in its headers while the stored `a.h` record's includer set
no longer contains `a.c`: the claimed symmetry fails after this two-insert
sequence. -/
theorem navc_C3_counterexample :
    ¬ includerSymmetry (runOps [dbOp.insert exTUa, dbOp.insert cxTUheader]) := by
  intro ⟨part1, _⟩
  have h1 := part1 "a.c" (persistTUDB exTUa) (by decide) "a.h" (by decide)
  obtain ⟨hr, hhr, hmem⟩ := h1
  have hget : (runOps [dbOp.insert exTUa, dbOp.insert cxTUheader]).getRecord
      "a.h" = some (persistTUDB cxTUheader) := by decide
  rw [hget, Option.some.injEq] at hhr
  rw [← hhr] at hmem
  revert hmem
  decide

theorem getStringEncode_id (s : String) : getStringEncode s = s := rfl

theorem getRecord_of_cached {s : symbolsDB} {fid : String}
    {c : tuSymbolsDBCache} {t : symbolsTUDB}
    (h1 : s.TUDBs.lookup fid = some c) (h2 : c.tudb = some t) :
    s.getRecord fid = some t := by
  rw [getRecord_eq_some h1, h2]

theorem getRecord_of_disk {s : symbolsDB} {fid : String}
    {c : tuSymbolsDBCache} {t : symbolsTUDB}
    (h1 : s.TUDBs.lookup fid = some c) (h2 : c.tudb = none)
    (h3 : s.disk.lookup fid = some t) :
    s.getRecord fid = some t := by
  rw [getRecord_eq_some h1, h2]
  exact h3

theorem SMap.mem_keys_isSome {K V : Type} [KOrd K] [DecidableEq K]
    {m : SMap K V} {k : K} : k ∈ m.keys ↔ (m.lookup k).isSome = true := by
  rw [SMap.mem_keys_iff, Option.isSome_iff_exists]

theorem SMap.isSome_erase {K V : Type} [KOrd K] [DecidableEq K]
    (m : SMap K V) (q k : K) :
    ((m.erase k).lookup q).isSome = true ↔ q ≠ k ∧ (m.lookup q).isSome = true := by
  by_cases hqk : q = k
  · subst hqk
    rw [SMap.lookup_erase_self]
    simp
  · rw [SMap.lookup_erase_ne m hqk]
    simp [hqk]

theorem SMap.isSome_insert {K V : Type} [KOrd K] [DecidableEq K]
    (m : SMap K V) (q k : K) (v : V) :
    ((m.insert k v).lookup q).isSome = true ↔ q = k ∨ (m.lookup q).isSome = true := by
  by_cases hqk : q = k
  · subst hqk
    rw [SMap.lookup_insert_self]
    simp
  · rw [SMap.lookup_insert_ne m v hqk]
    simp [hqk]

theorem SMap.isEmpty_false_of_isSome {K V : Type} [KOrd K] [DecidableEq K]
    {m : SMap K V} {k : K} (h : (m.lookup k).isSome = true) :
    m.isEmpty = false := by
  cases hb : m.isEmpty with
  | false => rfl
  | true =>
    rw [(SMap.isEmpty_iff_lookup_none m).mp hb k] at h
    exact Bool.noConfusion h

/-- The record a fresh header slot carries. -/
def freshHeaderRec (fileSha1 h : String) (mh : Nat) : symbolsTUDB :=
  { newSymbolsTUDB h mh with
    Includers := (SMap.empty : SMap String Bool).insert fileSha1 true }

theorem freshHeaderCache_tudb (fileSha1 h : String) (mh : Nat) :
    (freshHeaderCache fileSha1 h mh).tudb = some (freshHeaderRec fileSha1 h mh) :=
  rfl

theorem freshHeaderRec_inc (fileSha1 h : String) (mh : Nat) (q : String) :
    ((freshHeaderRec fileSha1 h mh).Includers.lookup q).isSome = true ↔
      q = fileSha1 := by
  show (((SMap.empty : SMap String Bool).insert fileSha1 true).lookup q).isSome
    = true ↔ q = fileSha1
  rw [SMap.isSome_insert]
  simp [SMap.lookup_empty]

/-- The record a joined header slot carries. -/
def joinedHeaderRec (fileSha1 : String) (ht : symbolsTUDB) : symbolsTUDB :=
  { ht with Includers := ht.Includers.insert fileSha1 true }

theorem joinedHeaderCache_tudb (fileSha1 : String) (c : tuSymbolsDBCache)
    (ht : symbolsTUDB) :
    (joinedHeaderCache fileSha1 c ht).tudb = some (joinedHeaderRec fileSha1 ht) :=
  rfl

theorem joinedHeaderRec_inc (fileSha1 : String) (ht : symbolsTUDB) (q : String) :
    ((joinedHeaderRec fileSha1 ht).Includers.lookup q).isSome = true ↔
      q = fileSha1 ∨ (ht.Includers.lookup q).isSome = true := by
  show ((ht.Includers.insert fileSha1 true).lookup q).isSome = true ↔ _
  exact SMap.isSome_insert _ _ _ _

/-- The slot a header keeps after a `RemoveFileReferences` that leaves it with
other includers. -/
def removedHeaderSlot (fileSha1 : String) (c : tuSymbolsDBCache)
    (ht : symbolsTUDB) : tuSymbolsDBCache :=
  { c with tudb := some { ht with Includers := ht.Includers.erase fileSha1 }, dirty := true }

/-- Store invariant maintained by `InsertTUDB`/`RemoveFileReferences` runs in
which a path plays only one of the two roles that `Hdr` assigns: vertex files
(`Hdr = false`) live as undecoded slots backed by a db file whose record has
an empty includer set and lists only `Hdr = true` headers that name it back;
headers (`Hdr = true`) live as decoded dirty slots with no db file, a
non-empty includer set, and every includer is a stored vertex file naming the
header in its header map. -/
structure dbInv (Hdr : String → Bool) (s : symbolsDB) : Prop where
  tuSlot : ∀ fid c, s.TUDBs.lookup fid = some c → Hdr fid = false →
    c.tudb = none ∧ ∃ r, s.disk.lookup fid = some r ∧
      r.Includers = SMap.empty ∧
      ∀ h ∈ r.Headers.keys, Hdr h = true ∧
        ∃ hc hr, s.TUDBs.lookup h = some hc ∧ hc.tudb = some hr ∧
          (hr.Includers.lookup fid).isSome = true
  hdSlot : ∀ fid c, s.TUDBs.lookup fid = some c → Hdr fid = true →
    ∃ hr, c.tudb = some hr ∧ s.disk.lookup fid = none ∧
      hr.Includers.isEmpty = false ∧
      ∀ f, (hr.Includers.lookup f).isSome = true → Hdr f = false ∧
        ∃ fc fr, s.TUDBs.lookup f = some fc ∧ s.disk.lookup f = some fr ∧
          (fr.Headers.lookup fid).isSome = true
  noOrphan : ∀ fid, s.TUDBs.lookup fid = none → s.disk.lookup fid = none

theorem dbInv_empty (Hdr : String → Bool) : dbInv Hdr symbolsDB.empty := by
  refine ⟨?_, ?_, ?_⟩
  · intro fid c h _
    exact Option.noConfusion h
  · intro fid c h _
    exact Option.noConfusion h
  · intro fid _
    rfl

theorem includerSymmetry_of_inv {Hdr : String → Bool} {s : symbolsDB}
    (hInv : dbInv Hdr s) : includerSymmetry s := by
  constructor
  · intro fid r hd h hm
    cases hsl : s.TUDBs.lookup fid with
    | none =>
      rw [hInv.noOrphan fid hsl] at hd
      exact Option.noConfusion hd
    | some c =>
      cases hH : Hdr fid with
      | true =>
        obtain ⟨hr, _, hdn, _, _⟩ := hInv.hdSlot fid c hsl hH
        rw [hdn] at hd
        exact Option.noConfusion hd
      | false =>
        obtain ⟨hct, r2, hd2, hinc2, hhdrs⟩ := hInv.tuSlot fid c hsl hH
        rw [hd2, Option.some.injEq] at hd
        subst hd
        obtain ⟨_, hc3, hr3, hsl3, htudb3, hmem3⟩ := hhdrs h hm
        exact ⟨hr3, getRecord_of_cached hsl3 htudb3, hmem3⟩
  · intro fid hr hget hne f hf
    cases hsl : s.TUDBs.lookup fid with
    | none =>
      have : s.getRecord fid = none := by
        unfold symbolsDB.getRecord
        rw [hsl]
      rw [this] at hget
      exact Option.noConfusion hget
    | some c =>
      rw [getRecord_eq_some hsl] at hget
      cases hH : Hdr fid with
      | false =>
        obtain ⟨hct, r2, hd2, hinc2, _⟩ := hInv.tuSlot fid c hsl hH
        rw [hct] at hget
        dsimp only at hget
        rw [hd2, Option.some.injEq] at hget
        subst hget
        rw [hinc2] at hne
        have hemp : (SMap.empty : SMap String Bool).isEmpty = true := rfl
        rw [hemp] at hne
        exact Bool.noConfusion hne
      | true =>
        obtain ⟨hr2, htudb2, _, _, hincs⟩ := hInv.hdSlot fid c hsl hH
        rw [htudb2] at hget
        dsimp only at hget
        rw [Option.some.injEq] at hget
        subst hget
        obtain ⟨hHf, fc, fr, hslf, hdf, hmemf⟩ := hincs f hf
        obtain ⟨hctf, _, _, _, _⟩ := hInv.tuSlot f fc hslf hHf
        exact ⟨fr, getRecord_of_disk hslf hctf hdf, hmemf⟩

theorem dbInv_remove (Hdr : String → Bool) (s : symbolsDB) (p : String)
    (hInv : dbInv Hdr s) (hp : Hdr p = false) :
    dbInv Hdr (s.RemoveFileReferences p).1 ∧
      (s.RemoveFileReferences p).1.TUDBs.lookup p = none := by
  cases hsl : s.TUDBs.lookup p with
  | none =>
    have hrun : s.RemoveFileReferences p = (s, some "File not in DB") := by
      unfold symbolsDB.RemoveFileReferences
      simp only [getStringEncode_id]
      rw [GetSymbolsTUDB_absent hsl]
    rw [hrun]
    exact ⟨hInv, hsl⟩
  | some c =>
    obtain ⟨hct, r, hdisk, hrinc, hrhdrs⟩ := hInv.tuSlot p c hsl hp
    have hrec : s.getRecord p = some r := getRecord_of_disk hsl hct hdisk
    have hself : p ∉ r.Headers.keys := by
      intro hm
      have hH := (hrhdrs p hm).1
      rw [hp] at hH
      exact Bool.noConfusion hH
    have hgood : ∀ h ∈ r.Headers.keys,
        ∃ c2 ht, s.TUDBs.lookup h = some c2 ∧ s.getRecord h = some ht := by
      intro h hm
      obtain ⟨_, hc2, hr2, hslot2, htudb2, _⟩ := hrhdrs h hm
      exact ⟨hc2, hr2, hslot2, getRecord_of_cached hslot2 htudb2⟩
    obtain ⟨herr, hgone1, hgone2, hframe, hhdr⟩ :=
      RemoveFileReferences_spec hsl hrec hself hgood
    simp only [getStringEncode_id] at hgone1 hgone2 hframe hhdr
    refine ⟨?_, hgone1⟩
    have hfate : ∀ h, h ∈ r.Headers.keys →
        ∀ hc2 hr2, s.TUDBs.lookup h = some hc2 → hc2.tudb = some hr2 →
        ((hr2.Includers.erase p).isEmpty = true ∧
          (s.RemoveFileReferences p).1.TUDBs.lookup h = none ∧
          (s.RemoveFileReferences p).1.disk.lookup h = none) ∨
        ((hr2.Includers.erase p).isEmpty = false ∧
          (s.RemoveFileReferences p).1.TUDBs.lookup h =
            some (removedHeaderSlot p hc2 hr2) ∧
          (s.RemoveFileReferences p).1.disk.lookup h = s.disk.lookup h) := by
      intro h hm hc2 hr2 hslot2 htudb2
      have hif := hhdr h hm hc2 hr2 hslot2 (getRecord_of_cached hslot2 htudb2)
      by_cases he : (hr2.Includers.erase p).isEmpty = true
      · rw [if_pos he] at hif
        exact Or.inl ⟨he, hif⟩
      · rw [if_neg he] at hif
        simp only [Bool.not_eq_true] at he
        exact Or.inr ⟨he, hif⟩
    refine ⟨?_, ?_, ?_⟩
    · intro q c' hq hHq
      have hqp : q ≠ p := by
        intro he
        subst he
        rw [hgone1] at hq
        exact Option.noConfusion hq
      have hqr : q ∉ r.Headers.keys := by
        intro hm
        have hH := (hrhdrs q hm).1
        rw [hHq] at hH
        exact Bool.noConfusion hH
      obtain ⟨e1, e2⟩ := hframe q hqr hqp
      rw [e1] at hq
      obtain ⟨hct2, r2, hdisk2, hrinc2, hhdrs2⟩ := hInv.tuSlot q c' hq hHq
      refine ⟨hct2, r2, ?_, hrinc2, ?_⟩
      · rw [e2]
        exact hdisk2
      · intro h hm
        obtain ⟨hH3, hc3, hr3, hslot3, htudb3, hmem3⟩ := hhdrs2 h hm
        refine ⟨hH3, ?_⟩
        by_cases hmr : h ∈ r.Headers.keys
        · rcases hfate h hmr hc3 hr3 hslot3 htudb3 with ⟨hemp, _, _⟩ | ⟨_, hup, _⟩
          · exfalso
            have hq3 : ((hr3.Includers.erase p).lookup q).isSome = true := by
              rw [SMap.lookup_erase_ne _ hqp]
              exact hmem3
            rw [(SMap.isEmpty_iff_lookup_none _).mp hemp q] at hq3
            exact Bool.noConfusion hq3
          · refine ⟨removedHeaderSlot p hc3 hr3,
              { hr3 with Includers := hr3.Includers.erase p }, hup, rfl, ?_⟩
            show ((hr3.Includers.erase p).lookup q).isSome = true
            rw [SMap.lookup_erase_ne _ hqp]
            exact hmem3
        · have hnp : h ≠ p := by
            intro he
            subst he
            rw [hp] at hH3
            exact Bool.noConfusion hH3
          obtain ⟨f1, _⟩ := hframe h hmr hnp
          exact ⟨hc3, hr3, f1.trans hslot3, htudb3, hmem3⟩
    · intro q c' hq hHq
      have hqp : q ≠ p := by
        intro he
        subst he
        rw [hp] at hHq
        exact Bool.noConfusion hHq
      by_cases hmr : q ∈ r.Headers.keys
      · obtain ⟨_, hc2, hr2, hslot2, htudb2, hmem2⟩ := hrhdrs q hmr
        obtain ⟨hrX, htudbX, hdiskN, hnemp, hincs⟩ := hInv.hdSlot q hc2 hslot2 hHq
        rw [htudb2, Option.some.injEq] at htudbX
        subst htudbX
        rcases hfate q hmr hc2 hr2 hslot2 htudb2 with ⟨_, hdel, _⟩ | ⟨hne2, hup, hdk⟩
        · rw [hdel] at hq
          exact Option.noConfusion hq
        · rw [hup, Option.some.injEq] at hq
          subst hq
          refine ⟨{ hr2 with Includers := hr2.Includers.erase p }, rfl, ?_, hne2, ?_⟩
          · rw [hdk]
            exact hdiskN
          · intro f hf
            have hf2 : ((hr2.Includers.erase p).lookup f).isSome = true := hf
            obtain ⟨hfp, hf3⟩ := (SMap.isSome_erase _ _ _).mp hf2
            obtain ⟨hHf, fc, fr, hslf, hdf, hmemf⟩ := hincs f hf3
            have hfr : f ∉ r.Headers.keys := by
              intro hm2
              have hH4 := (hrhdrs f hm2).1
              rw [hHf] at hH4
              exact Bool.noConfusion hH4
            obtain ⟨f1, f2⟩ := hframe f hfr hfp
            exact ⟨hHf, fc, fr, f1.trans hslf, f2.trans hdf, hmemf⟩
      · obtain ⟨e1, e2⟩ := hframe q hmr hqp
        rw [e1] at hq
        obtain ⟨hr2, htudb2, hdiskN, hnemp, hincs⟩ := hInv.hdSlot q c' hq hHq
        refine ⟨hr2, htudb2, ?_, hnemp, ?_⟩
        · rw [e2]
          exact hdiskN
        · intro f hf
          obtain ⟨hHf, fc, fr, hslf, hdf, hmemf⟩ := hincs f hf
          have hfp : f ≠ p := by
            intro he
            subst he
            rw [hdisk, Option.some.injEq] at hdf
            subst hdf
            exact hmr (SMap.mem_keys_isSome.mpr hmemf)
          have hfr : f ∉ r.Headers.keys := by
            intro hm2
            have hH4 := (hrhdrs f hm2).1
            rw [hHf] at hH4
            exact Bool.noConfusion hH4
          obtain ⟨f1, f2⟩ := hframe f hfr hfp
          exact ⟨hHf, fc, fr, f1.trans hslf, f2.trans hdf, hmemf⟩
    · intro q hq
      by_cases hqp : q = p
      · subst hqp
        exact hgone2
      · by_cases hmr : q ∈ r.Headers.keys
        · obtain ⟨_, hc2, hr2, hslot2, htudb2, _⟩ := hrhdrs q hmr
          rcases hfate q hmr hc2 hr2 hslot2 htudb2 with ⟨_, _, hdn⟩ | ⟨_, hup, _⟩
          · exact hdn
          · rw [hup] at hq
            exact Option.noConfusion hq
        · obtain ⟨e1, e2⟩ := hframe q hmr hqp
          rw [e1] at hq
          rw [e2]
          exact hInv.noOrphan q hq

theorem dbInv_noinc {Hdr : String → Bool} {s : symbolsDB} {x : String}
    (hInv : dbInv Hdr s) (habs : s.TUDBs.lookup x = none) :
    ∀ q c hr, s.TUDBs.lookup q = some c → c.tudb = some hr →
      (hr.Includers.lookup x).isSome = false := by
  intro q c hr hslot htudb
  cases hb : (hr.Includers.lookup x).isSome with
  | false => rfl
  | true =>
    exfalso
    cases hH : Hdr q with
    | false =>
      obtain ⟨hct, _, _, _, _⟩ := hInv.tuSlot q c hslot hH
      rw [hct] at htudb
      exact Option.noConfusion htudb
    | true =>
      obtain ⟨hr2, htudb2, _, _, hincs⟩ := hInv.hdSlot q c hslot hH
      rw [htudb, Option.some.injEq] at htudb2
      subst htudb2
      obtain ⟨_, fc, _, hslx, _, _⟩ := hincs x hb
      rw [habs] at hslx
      exact Option.noConfusion hslx

theorem dbInv_body {Hdr : String → Bool} {s : symbolsDB} {t : symbolsTUDB}
    (hInv : dbInv Hdr s)
    (habs : s.TUDBs.lookup t.File = none)
    (hHf : Hdr t.File = false)
    (hHh : ∀ h ∈ t.headersTUDB.keys, Hdr h = true)
    (hcoh : t.Headers.keys = t.headersTUDB.keys)
    (hInc : t.Includers = SMap.empty) :
    dbInv Hdr (insertTUDBBody s t.File t).1 := by
  have hnoinc := dbInv_noinc hInv habs
  have hgoodhs : ∀ h ∈ t.headersTUDB.keys, s.TUDBs.lookup h = none ∨
      ∃ c ht, s.TUDBs.lookup h = some c ∧ s.getRecord h = some ht := by
    intro h hm
    cases hslh : s.TUDBs.lookup h with
    | none => exact Or.inl rfl
    | some c2 =>
      obtain ⟨hr2, htudb2, _, _, _⟩ := hInv.hdSlot h c2 hslh (hHh h hm)
      exact Or.inr ⟨c2, hr2, rfl, getRecord_of_cached hslh htudb2⟩
  obtain ⟨hok, hslotf, hdiskf, hdiskframe, hslotframe, hhdr⟩ :=
    @insertTUDBBody_spec s t.File t hgoodhs
  have hnew : ∀ h ∈ t.headersTUDB.keys,
      (s.TUDBs.lookup h = none ∧
        (insertTUDBBody s t.File t).1.TUDBs.lookup h =
          some (freshHeaderCache t.File h ((t.Headers.lookup h).getD 0))) ∨
      (∃ c2 hr2, s.TUDBs.lookup h = some c2 ∧ c2.tudb = some hr2 ∧
        (insertTUDBBody s t.File t).1.TUDBs.lookup h =
          some (joinedHeaderCache t.File c2 hr2)) := by
    intro h hm
    have hne : h ≠ t.File := by
      intro he
      have hH := hHh h hm
      rw [he, hHf] at hH
      exact Bool.noConfusion hH
    cases hslh : s.TUDBs.lookup h with
    | none => exact Or.inl ⟨rfl, (hhdr h hm hne).1 hslh⟩
    | some c2 =>
      obtain ⟨hr2, htudb2, _, _, _⟩ := hInv.hdSlot h c2 hslh (hHh h hm)
      exact Or.inr ⟨c2, hr2, rfl, htudb2,
        (hhdr h hm hne).2 c2 hr2 hslh (getRecord_of_cached hslh htudb2)⟩
  refine ⟨?_, ?_, ?_⟩
  · intro q c' hq hHq
    by_cases hqf : q = t.File
    · subst hqf
      rw [hslotf, Option.some.injEq] at hq
      subst hq
      refine ⟨rfl, persistTUDB t, hdiskf, hInc, ?_⟩
      intro h hm
      have hm2 : h ∈ t.headersTUDB.keys := by
        rw [← hcoh]
        exact hm
      refine ⟨hHh h hm2, ?_⟩
      rcases hnew h hm2 with ⟨_, hfr⟩ | ⟨c2, hr2, _, _, hjn⟩
      · exact ⟨_, _, hfr, freshHeaderCache_tudb _ _ _,
          (freshHeaderRec_inc _ _ _ _).mpr rfl⟩
      · exact ⟨_, _, hjn, joinedHeaderCache_tudb _ _ _,
          (joinedHeaderRec_inc _ _ _).mpr (Or.inl rfl)⟩
    · have hqk : q ∉ t.headersTUDB.keys := by
        intro hm
        have hH := hHh q hm
        rw [hHq] at hH
        exact Bool.noConfusion hH
      rw [hslotframe q hqf hqk] at hq
      obtain ⟨hct2, r2, hdisk2, hrinc2, hhdrs2⟩ := hInv.tuSlot q c' hq hHq
      refine ⟨hct2, r2, ?_, hrinc2, ?_⟩
      · rw [hdiskframe q hqf]
        exact hdisk2
      · intro h hm
        obtain ⟨hH3, hc3, hr3, hslot3, htudb3, hmem3⟩ := hhdrs2 h hm
        refine ⟨hH3, ?_⟩
        by_cases hmk : h ∈ t.headersTUDB.keys
        · rcases hnew h hmk with ⟨habs3, _⟩ | ⟨c4, hr4, hsl4, htudb4, hjn⟩
          · rw [habs3] at hslot3
            exact Option.noConfusion hslot3
          · rw [hslot3, Option.some.injEq] at hsl4
            subst hsl4
            rw [htudb3, Option.some.injEq] at htudb4
            subst htudb4
            exact ⟨_, _, hjn, joinedHeaderCache_tudb _ _ _,
              (joinedHeaderRec_inc _ _ _).mpr (Or.inr hmem3)⟩
        · have hne3 : h ≠ t.File := by
            intro he
            rw [he, habs] at hslot3
            exact Option.noConfusion hslot3
          exact ⟨hc3, hr3, (hslotframe h hne3 hmk).trans hslot3, htudb3, hmem3⟩
  · intro q c' hq hHq
    have hqf : q ≠ t.File := by
      intro he
      rw [he, hHf] at hHq
      exact Bool.noConfusion hHq
    by_cases hmk : q ∈ t.headersTUDB.keys
    · rcases hnew q hmk with ⟨habs2, hfr⟩ | ⟨c2, hr2, hsl2, htudb2, hjn⟩
      · rw [hfr, Option.some.injEq] at hq
        subst hq
        refine ⟨freshHeaderRec t.File q _, freshHeaderCache_tudb _ _ _, ?_, ?_, ?_⟩
        · rw [hdiskframe q hqf]
          exact hInv.noOrphan q habs2
        · exact SMap.isEmpty_false_of_isSome ((freshHeaderRec_inc _ _ _ _).mpr rfl)
        · intro f hf
          have hffid : f = t.File := (freshHeaderRec_inc _ _ _ _).mp hf
          subst hffid
          refine ⟨hHf, freshTUCache t, persistTUDB t, hslotf, hdiskf, ?_⟩
          have hmq : q ∈ t.Headers.keys := by
            rw [hcoh]
            exact hmk
          exact SMap.mem_keys_isSome.mp hmq
      · rw [hjn, Option.some.injEq] at hq
        subst hq
        obtain ⟨hrX, htudbX, hdiskN2, _, hincs2⟩ := hInv.hdSlot q c2 hsl2 hHq
        rw [htudb2, Option.some.injEq] at htudbX
        subst htudbX
        refine ⟨joinedHeaderRec t.File hr2, joinedHeaderCache_tudb _ _ _, ?_, ?_, ?_⟩
        · rw [hdiskframe q hqf]
          exact hdiskN2
        · exact SMap.isEmpty_false_of_isSome
            ((joinedHeaderRec_inc _ _ _).mpr (Or.inl rfl))
        · intro f hf
          rcases (joinedHeaderRec_inc _ _ _).mp hf with hffid | hfold
          · subst hffid
            refine ⟨hHf, freshTUCache t, persistTUDB t, hslotf, hdiskf, ?_⟩
            have hmq : q ∈ t.Headers.keys := by
              rw [hcoh]
              exact hmk
            exact SMap.mem_keys_isSome.mp hmq
          · have hffile : f ≠ t.File := by
              intro he
              subst he
              rw [hnoinc q c2 hr2 hsl2 htudb2] at hfold
              exact Bool.noConfusion hfold
            obtain ⟨hHf2, fc, fr, hslf, hdf, hmemf⟩ := hincs2 f hfold
            have hfk : f ∉ t.headersTUDB.keys := by
              intro hm3
              have hH := hHh f hm3
              rw [hHf2] at hH
              exact Bool.noConfusion hH
            refine ⟨hHf2, fc, fr, (hslotframe f hffile hfk).trans hslf, ?_, hmemf⟩
            rw [hdiskframe f hffile]
            exact hdf
    · rw [hslotframe q hqf hmk] at hq
      obtain ⟨hr2, htudb2, hdiskN, hnemp, hincs⟩ := hInv.hdSlot q c' hq hHq
      refine ⟨hr2, htudb2, ?_, hnemp, ?_⟩
      · rw [hdiskframe q hqf]
        exact hdiskN
      · intro f hf
        have hffile : f ≠ t.File := by
          intro he
          subst he
          rw [hnoinc q c' hr2 hq htudb2] at hf
          exact Bool.noConfusion hf
        obtain ⟨hHf2, fc, fr, hslf, hdf, hmemf⟩ := hincs f hf
        have hfk : f ∉ t.headersTUDB.keys := by
          intro hm3
          have hH := hHh f hm3
          rw [hHf2] at hH
          exact Bool.noConfusion hH
        refine ⟨hHf2, fc, fr, (hslotframe f hffile hfk).trans hslf, ?_, hmemf⟩
        rw [hdiskframe f hffile]
        exact hdf
  · intro q hq
    by_cases hqf : q = t.File
    · subst hqf
      rw [hslotf] at hq
      exact Option.noConfusion hq
    · by_cases hmk : q ∈ t.headersTUDB.keys
      · exfalso
        rcases hnew q hmk with ⟨_, hfr⟩ | ⟨_, _, _, _, hjn⟩
        · rw [hfr] at hq
          exact Option.noConfusion hq
        · rw [hjn] at hq
          exact Option.noConfusion hq
      · rw [hslotframe q hqf hmk] at hq
        rw [hdiskframe q hqf]
        exact hInv.noOrphan q hq

theorem dbInv_insert {Hdr : String → Bool} {s : symbolsDB} {t : symbolsTUDB}
    (hInv : dbInv Hdr s) (hHf : Hdr t.File = false)
    (hHh : ∀ h ∈ t.headersTUDB.keys, Hdr h = true)
    (hcoh : t.Headers.keys = t.headersTUDB.keys)
    (hInc : t.Includers = SMap.empty) :
    dbInv Hdr (s.InsertTUDB t).1 := by
  cases hsl : s.TUDBs.lookup t.File with
  | none =>
    have habs : s.TUDBs.lookup (getStringEncode t.File) = none := hsl
    rw [InsertTUDB_absent habs]
    exact dbInv_body hInv hsl hHf hHh hcoh hInc
  | some otudb =>
    have hsl2 : s.TUDBs.lookup (getStringEncode t.File) = some otudb := hsl
    by_cases hm : otudb.Mtime > t.Mtime
    · rw [InsertTUDB_stale hsl2 hm]
      exact hInv
    · rw [InsertTUDB_fresh hsl2 hm]
      obtain ⟨hInv2, habs2⟩ := dbInv_remove Hdr s t.File hInv hHf
      exact dbInv_body hInv2 habs2 hHf hHh hcoh hInc

/-- The well-formedness that parser output obeys: an inserted record is a
translation unit (not a header path), lists only header paths in a coherent
`Headers`/`headersTUDB` pair, and carries no includers of its own; removals
target translation-unit paths only. -/
def OpOK (Hdr : String → Bool) : dbOp → Prop
  | .insert t => Hdr t.File = false ∧
      (∀ h ∈ t.headersTUDB.keys, Hdr h = true) ∧
      t.Headers.keys = t.headersTUDB.keys ∧ t.Includers = SMap.empty
  | .remove p => Hdr p = false

theorem dbInv_apply {Hdr : String → Bool} {s : symbolsDB} {op : dbOp}
    (hInv : dbInv Hdr s) (hok : OpOK Hdr op) : dbInv Hdr (applyOp s op) := by
  cases op with
  | insert t =>
    obtain ⟨h1, h2, h3, h4⟩ := hok
    exact dbInv_insert hInv h1 h2 h3 h4
  | remove p => exact (dbInv_remove Hdr s p hInv hok).1

theorem dbInv_foldl {Hdr : String → Bool} (ops : List dbOp) :
    ∀ s : symbolsDB, dbInv Hdr s → (∀ op ∈ ops, OpOK Hdr op) →
      dbInv Hdr (ops.foldl applyOp s) := by
  induction ops with
  | nil =>
    intro s hInv _
    exact hInv
  | cons op ops ih =>
    intro s hInv hops
    exact ih (applyOp s op)
      (dbInv_apply hInv (hops op (List.mem_cons_self op ops)))
      (fun o ho => hops o (List.mem_cons_of_mem op ho))

/-- C3 (amended): includer symmetry (spec P1) holds after any sequence of
`InsertTUDB`/`RemoveFileReferences` operations from the empty store in which
translation-unit paths and header paths are disjoint roles (classified by
`Hdr`): inserted records are translation units whose `Headers`/`headersTUDB`
list only header paths, records carry no pre-set includers, and removals
target translation-unit paths.  Without the role separation the property is
refuted by `navc_C3_counterexample`: inserting a record whose file is another
record's header path destroys the symmetry. -/
theorem navc_C3_includer_symmetry (Hdr : String → Bool) (ops : List dbOp)
    (hops : ∀ op ∈ ops, OpOK Hdr op) :
    includerSymmetry (runOps ops) :=
  includerSymmetry_of_inv (dbInv_foldl ops symbolsDB.empty (dbInv_empty Hdr) hops)

theorem navc_C3_witness :
    includerSymmetry (runOps [dbOp.insert exTUa, dbOp.remove "a.c"]) := by
  apply navc_C3_includer_symmetry (fun p => decide (p = "a.h"))
  intro op hop
  rcases List.mem_cons.mp hop with h | h
  · subst h
    exact ⟨by decide, by decide, by decide, by decide⟩
  · rcases List.mem_cons.mp h with h2 | h2
    · subst h2
      exact (by decide : decide ("a.c" = "a.h") = false)
    · cases h2
